import Mathlib

/-!
Verification development for the WAN-provisioning pipeline script
(nornir-netbox-demo.py): a shallow embedding of its core logic —
the Layer-3 connectivity validator (`validate_l3`), the BGP adjacency
classifier (`validate_bgp`), the NetBox reconciliation routine
(`update_netbox`), and the stage pipeline driven by `main` — together
with theorems about the behaviour of those definitions.
-/

namespace NornirNetboxDemo

/-! ## IPv4 address arithmetic

The script manipulates addresses via Python's `ipaddress.ip_interface`,
applied to strings of the form `"a.b.c.d/m.m.m.m"`.  We model a parsed
address as a `Nat` below `2^32` and a netmask by its bit pattern; parsing
is fallible (`Option`), mirroring the `ValueError` Python raises on
malformed input. -/

/-- Split a character list at every occurrence of a separator character. -/
def splitChars (sep : Char) : List Char → List (List Char)
  | [] => [[]]
  | c :: cs =>
    match splitChars sep cs with
    | [] => if c = sep then [[], []] else [[c]]
    | r :: rs => if c = sep then [] :: r :: rs else (c :: r) :: rs

/-- Split a string on a separator character (model of Python's `str.split`
with a one-character separator). -/
def splitStr (sep : Char) (s : String) : List String :=
  (splitChars sep s.data).map String.mk

/-- Value of one decimal digit character, if it is one. -/
def decDigit (c : Char) : Option Nat :=
  if c.toNat ≥ 48 ∧ c.toNat ≤ 57 then some (c.toNat - 48) else none

/-- Parse a nonempty all-digit string as a decimal number. -/
def parseDecimal (s : String) : Option Nat :=
  match s.data.mapM decDigit with
  | some [] => none
  | some ds => some (ds.foldl (fun a d => a * 10 + d) 0)
  | none => none

/-- Parse one dotted-quad octet: a decimal numeral between 0 and 255. -/
def parseOctet (s : String) : Option Nat :=
  match parseDecimal s with
  | some n => if n ≤ 255 then some n else none
  | none => none

/-- Parse a dotted-quad IPv4 address string into its 32-bit numeric value. -/
def ipv4ToNat (s : String) : Option Nat :=
  match (splitStr '.' s).mapM parseOctet with
  | some [a, b, c, d] => some (((a * 256 + b) * 256 + c) * 256 + d)
  | _ => none

/-- Render a 32-bit numeric value back to dotted-quad form (what Python's
`str()` of an address produces). -/
def natToIPv4 (n : Nat) : String :=
  toString (n / 2 ^ 24 % 256) ++ "." ++ toString (n / 2 ^ 16 % 256) ++ "."
    ++ toString (n / 2 ^ 8 % 256) ++ "." ++ toString (n % 256)

/-- A valid netmask is a run of ones followed by zeros; return its length
(the CIDR prefix), or `none` if the bit pattern is not a netmask
(`ip_interface` rejects such masks). -/
def maskToPrefixLen (m : Nat) : Option Nat :=
  (List.range 33).find? (fun p => 2 ^ 32 - 2 ^ (32 - p) == m)

/-- Model of `ip_interface(f"{addr}/{mask}")`: parse both dotted quads and
require the mask to be a valid netmask.  Returns (address value, mask bits). -/
def ipInterfaceParse (addr mask : String) : Option (Nat × Nat) := do
  let a ← ipv4ToNat addr
  let m ← ipv4ToNat mask
  let _ ← maskToPrefixLen m
  pure (a, m)

/-- The `.network` of an interface address: the address masked by the netmask. -/
def network (a m : Nat) : Nat := a.land m

/-- Model of `str(ip_interface(f"{ip}/{mask}"))`: the canonical CIDR string
`"a.b.c.d/p"`. -/
def canonicalCidr (ip mask : String) : Option String := do
  let a ← ipv4ToNat ip
  let m ← ipv4ToNat mask
  let p ← maskToPrefixLen m
  pure (natToIPv4 a ++ "/" ++ toString p)

/-! ## Declarative intent (NetBox config context)

The per-device provisioning data: BGP neighbors/networks and the
interface intent.  Python dicts are modelled as association lists in
insertion order. -/

/-- One BGP neighbor entry of the config context. -/
structure Neighbor where
  ipaddr : String
  remote_asn : Nat
deriving DecidableEq, Repr

/-- Declarative intent for one interface: `{description, ipaddr, state}`,
where `ipaddr` is the string `"address mask"`. -/
structure IntfIntent where
  description : String
  ipaddr : String
  state : String
deriving DecidableEq, Repr

/-- The `bgp` part of the config context. -/
structure BgpVars where
  asn : Nat
  neighbors : List Neighbor
  rid : String
deriving DecidableEq, Repr

/-- The whole config context (`task.host["config_vars"]`). -/
structure ConfigVars where
  bgp : BgpVars
  interfaces : List (String × IntfIntent)
deriving DecidableEq, Repr

/-- Model of `intf["ipaddr"].split(" ")` with tuple unpacking into
`source, mask`: succeeds only on exactly two space-separated parts. -/
def splitIpaddr (s : String) : Option (String × String) :=
  match splitStr ' ' s with
  | [a, b] => some (a, b)
  | _ => none

/-! ## Layer-3 connectivity validator (`validate_l3`) -/

/-- The `success` value of a NAPALM ping result. -/
structure PingSuccess where
  packet_loss : Nat
deriving DecidableEq, Repr

/-- A NAPALM ping result dict: it may or may not carry a `success` key. -/
structure PingResult where
  success : Option PingSuccess
deriving DecidableEq, Repr

/-- Classification of one ping result by `validate_l3` (lines 303-319):
`true` means the probe is counted as failed.  A result with a `success`
key and `packet_loss < 2` passes; any other result fails. -/
def pingFailed (r : PingResult) : Bool :=
  match r.success with
  | some s => if s.packet_loss < 2 then false else true
  | none => true

/-- Inner loop of `validate_l3` (lines 287-319) for a fixed neighbor
`destination`: walk the interface intent, parse each local address and
apply the local mask to both ends; when the networks coincide, probe via
`ping source destination` and count a failure according to `pingFailed`.
Returns the probes issued (as (source, destination) pairs) and the
failed-probe count; `none` when any address fails to parse (the Python
code would raise). -/
def validateL3Intf (ping : String → String → PingResult) (destination : String) :
    List (String × IntfIntent) → Option (List (String × String) × Nat)
  | [] => some ([], 0)
  | e :: rest => do
    let (source, mask) ← splitIpaddr e.2.ipaddr
    let (src, m) ← ipInterfaceParse source mask
    let (dst, _) ← ipInterfaceParse destination mask
    let (ps, f) ← validateL3Intf ping destination rest
    if network src m == network dst m then
      pure ((source, destination) :: ps,
        (if pingFailed (ping source destination) then 1 else 0) + f)
    else
      pure (ps, f)

/-- Outer loop of `validate_l3` (line 282): iterate over the BGP neighbors. -/
def validateL3Neighbors (ping : String → String → PingResult)
    (interfaces : List (String × IntfIntent)) :
    List Neighbor → Option (List (String × String) × Nat)
  | [] => some ([], 0)
  | nb :: rest => do
    let (ps, f) ← validateL3Intf ping nb.ipaddr interfaces
    let (ps2, f2) ← validateL3Neighbors ping interfaces rest
    pure (ps ++ ps2, f + f2)

/-- The `validate_l3` task (lines 277-323): probes every same-network
neighbor/interface pair and accumulates the failed-ping count. -/
def validate_l3 (ping : String → String → PingResult) (cfg : ConfigVars) :
    Option (List (String × String) × Nat) :=
  validateL3Neighbors ping cfg.interfaces cfg.bgp.neighbors

/-- Line 322: the device reports all-succeeded exactly when
`failed_pings == 0`. -/
def validateL3Report (ping : String → String → PingResult) (cfg : ConfigVars) :
    Option Bool :=
  (validate_l3 ping cfg).map (fun r => r.2 == 0)

/-- Spec-side definition (for comparison with `validate_l3`): for a fixed
neighbor address, the probes to issue are one per local interface whose
network, under that interface's own mask, also contains the neighbor
address — and none for an interface on a disjoint network. -/
def specProbesFor (destination : String) :
    List (String × IntfIntent) → Option (List (String × String))
  | [] => some []
  | e :: rest => do
    let (source, mask) ← splitIpaddr e.2.ipaddr
    let (src, m) ← ipInterfaceParse source mask
    let (dst, _) ← ipInterfaceParse destination mask
    let ps ← specProbesFor destination rest
    pure (if network src m == network dst m then (source, destination) :: ps else ps)

/-- Spec-side definition: the probes of all neighbor entries, in order. -/
def specProbesNeighbors (interfaces : List (String × IntfIntent)) :
    List Neighbor → Option (List (String × String))
  | [] => some []
  | nb :: rest => do
    let ps ← specProbesFor nb.ipaddr interfaces
    let ps2 ← specProbesNeighbors interfaces rest
    pure (ps ++ ps2)

/-- Spec-side definition: the probe set the Connectivity Validator must
issue for a config context — exactly one probe per neighbor/interface
pair sharing a network under the local mask. -/
def specProbes (cfg : ConfigVars) : Option (List (String × String)) :=
  specProbesNeighbors cfg.interfaces cfg.bgp.neighbors

/-! ## BGP adjacency classifier (`validate_bgp`) -/

/-- The adjacency judgment printed for a peer. -/
inductive AdjacencyState where
  | up
  | down
deriving DecidableEq, Repr

/-- The peer facts consumed by `validate_bgp`: the `is_up` boolean of
`get_bgp_neighbors`. -/
structure PeerFacts where
  is_up : Bool
deriving DecidableEq, Repr

/-- The `validate_bgp` task (lines 338-355): for each peer, one `if`
emits Up when `is_up == True` and a second independent `if` emits Down
when `is_up == False`.  Returns the emitted judgments in order. -/
def validate_bgp (peers : List (String × PeerFacts)) : List (String × AdjacencyState) :=
  peers.flatMap (fun peer =>
    (if peer.2.is_up == true then [(peer.1, AdjacencyState.up)] else []) ++
    (if peer.2.is_up == false then [(peer.1, AdjacencyState.down)] else []))

/-! ## NetBox inventory model and the reconciliation routine (`update_netbox`)

The NetBox server state is modelled as lists of records, and each API
call of the `netbox` client used by the script as a function on that
state.  A Python value that may be an actual null is modelled as an
`Option String` (with `none` for Python's `None` object, distinct from
the literal string `"None"`). -/

/-- An inventory interface record, as returned by `dcim.get_interfaces`:
it carries its numeric id, its device's id and display name, its name,
and the mutable description/MAC fields. -/
structure NbInterface where
  id : Nat
  device_id : Nat
  device_display_name : String
  name : String
  description : String
  mac_address : Option String
deriving DecidableEq, Repr

/-- An inventory IP-address record: the literal CIDR string and the id of
the interface it is attached to. -/
structure NbIp where
  address : String
  interface_id : Nat
deriving DecidableEq, Repr

/-- An inventory device record with the catalog fields touched by
`dcim.update_device`. -/
structure NbDevice where
  id : Nat
  name : String
  device_type_id : Nat
  device_role_id : Nat
  site_id : Nat
deriving DecidableEq, Repr

/-- The NetBox inventory state: device, interface and IP-address tables,
plus the id counter used for newly created interfaces. -/
structure NbState where
  devices : List NbDevice
  interfaces : List NbInterface
  ips : List NbIp
  next_intf_id : Nat
deriving DecidableEq, Repr

/-- The device the task runs against: its Nornir host name (also its
NetBox display name) and its NetBox device id (`task.host["device_id"]`). -/
structure Device where
  id : Nat
  name : String
deriving DecidableEq, Repr

/-- Model of `netbox.dcim.get_interfaces(device_id=...)`: the interface
records of that device. -/
def getInterfaces (s : NbState) (device_id : Nat) : List NbInterface :=
  s.interfaces.filter (fun i => i.device_id == device_id)

/-- Model of `netbox.dcim.create_interface(name=..., device_id=..., ...)`:
append a fresh record; NetBox derives the record's device display name
from the device id. -/
def createInterface (s : NbState) (name : String) (dev : Device)
    (description : String) (mac_address : Option String) : NbState :=
  { s with
    interfaces := s.interfaces ++
      [{ id := s.next_intf_id, device_id := dev.id, device_display_name := dev.name,
         name := name, description := description, mac_address := mac_address }],
    next_intf_id := s.next_intf_id + 1 }

/-- Model of `netbox.dcim.update_interface(device=..., interface=..., ...)`:
set description and MAC on the record(s) identified by device name and
interface name. -/
def updateInterface (s : NbState) (device interface : String)
    (description : String) (mac_address : Option String) : NbState :=
  { s with
    interfaces := s.interfaces.map (fun i =>
      if i.device_display_name == device && i.name == interface then
        { i with description := description, mac_address := mac_address }
      else i) }

/-- Model of `netbox.ipam.get_ip_addresses(address=...)`: the IP records
with that literal address string. -/
def getIpAddresses (s : NbState) (address : String) : List NbIp :=
  s.ips.filter (fun ip => ip.address == address)

/-- Model of `netbox.ipam.create_ip_address(address=..., interface=...)`. -/
def createIpAddress (s : NbState) (address : String) (interface : Nat) : NbState :=
  { s with ips := s.ips ++ [{ address := address, interface_id := interface }] }

/-- Model of `netbox.dcim.update_device(device_name=..., device_type=...,
device_role=..., site=...)`. -/
def updateDevice (s : NbState) (device_name : String) (t r site : Nat) : NbState :=
  { s with
    devices := s.devices.map (fun d =>
      if d.name == device_name then
        { d with device_type_id := t, device_role_id := r, site_id := site }
      else d) }

/-- Lines 379-383 of the script: membership test of an interface in a
fetched interface list, keyed by interface name and device display name. -/
def is_interface_present (nb_interfaces : List NbInterface)
    (device_name interface_name : String) : Bool :=
  nb_interfaces.any (fun i =>
    i.name == interface_name && i.device_display_name == device_name)

/-- The observed facts for one interface used by `update_netbox`
(from the NAPALM `interfaces` getter). -/
structure ObservedIntf where
  description : String
  mac_address : Option String
deriving DecidableEq, Repr

/-- Lines 404-407: MAC normalization.  The literal strings `"None"`,
`"Unspecified"` and `""` are replaced by the sentinel
`EE:EE:EE:EE:EE:EE`; any other value — including an actual Python
`None`, modelled as `none` — is left unchanged. -/
def normalizeMac (mac_address : Option String) : Option String :=
  if mac_address == some "None" || mac_address == some "Unspecified" ||
      mac_address == some "" then
    some "EE:EE:EE:EE:EE:EE"
  else mac_address

/-- Body of the interface-reconciliation loop (lines 400-427) for one
observed interface, against the interface snapshot `nb_interfaces`
fetched before the loop: create when absent, otherwise update
description and MAC. -/
def interfacePhaseStep (dev : Device) (nb_interfaces : List NbInterface)
    (s : NbState) (e : String × ObservedIntf) : NbState :=
  let description := e.2.description
  let mac_address := normalizeMac e.2.mac_address
  if ¬ is_interface_present nb_interfaces dev.name e.1 then
    createInterface s e.1 dev description mac_address
  else
    updateInterface s dev.name e.1 description mac_address

/-- The interface-reconciliation phase of `update_netbox` (lines 400-427):
fold the loop body over the observed interfaces, with the NetBox
interface list snapshotted once before the loop. -/
def interfacePhase (dev : Device) (s : NbState)
    (observed : List (String × ObservedIntf)) : NbState :=
  let nb_interfaces := getInterfaces s dev.id
  observed.foldl (interfacePhaseStep dev nb_interfaces) s

/-- The post-state of an upsert for one observed interface: every
inventory record keyed by the device's display name and the observed
interface name carries the observed description and normalized MAC. -/
def recordMatches (dev : Device) (nm : String) (o : ObservedIntf) (s : NbState) : Prop :=
  ∀ r ∈ s.interfaces, r.device_display_name = dev.name → r.name = nm →
    r.description = o.description ∧ r.mac_address = normalizeMac o.mac_address

/-- Inner loop of the IP-reconciliation step (lines 443-455): for one
snapshot interface record, when the intent name matches it, either
create the IP address on it (when the pre-loop lookup was empty) or
flag the address for manual verification. -/
def ipAttach (name ipaddr : String) (empty : Bool) (a : NbState × List String)
    (nb_intf : NbInterface) : NbState × List String :=
  if name == nb_intf.name then
    if empty then (createIpAddress a.1 ipaddr nb_intf.id, a.2)
    else (a.1, a.2 ++ [ipaddr])
  else a

/-- Body of the IP-reconciliation loop (lines 434-455) for one entry of
the declarative interface intent: compute the canonical CIDR string,
look up existing IP records once, then run the inner loop over the
snapshot interface records.  Returns the new state and the flagged
addresses. -/
def ipPhaseStep (nb_interfaces : List NbInterface) (acc : NbState × List String)
    (intf : String × IntfIntent) : Option (NbState × List String) := do
  let (ip, mask) ← splitIpaddr intf.2.ipaddr
  let ipaddr ← canonicalCidr ip mask
  let ip_exists := getIpAddresses acc.1 ipaddr
  pure (nb_interfaces.foldl (ipAttach intf.1 ipaddr ip_exists.isEmpty) acc)

/-- The IP-reconciliation phase of `update_netbox` (lines 434-455), over
the refreshed interface snapshot. -/
def ipPhase (nb_interfaces : List NbInterface) (s : NbState)
    (intent : List (String × IntfIntent)) : Option (NbState × List String) :=
  intent.foldlM (ipPhaseStep nb_interfaces) (s, [])

/-- The `update_netbox` task (lines 387-466): interface reconciliation
against a pre-loop snapshot, refresh of the snapshot, IP reconciliation,
then the unconditional lifecycle update moving the device to device
type 2, role 2, site 1.  The observed facts are those fetched by
`get_updated_info`; `none` when an intent address fails to parse (the
Python code would raise).  Returns the final state and the addresses
flagged for manual verification. -/
def update_netbox (dev : Device) (observed : List (String × ObservedIntf))
    (cfg : ConfigVars) (s : NbState) : Option (NbState × List String) := do
  let s1 := interfacePhase dev s observed
  let nb_interfaces := getInterfaces s1 dev.id
  let (s2, flags) ← ipPhase nb_interfaces s1 cfg.interfaces
  pure (updateDevice s2 dev.name 2 2 1, flags)

/-! ## Stage sequencer (`main` and the Nornir run loop) -/

/-- A pipeline stage, abstracted by its name and by which hosts succeed
it when executed. -/
structure Stage where
  name : String
  ok : String → Bool

/-- Modelled from the spec: the cohort executing a stage.  The Nornir
task runner invoked by each `nr.run(...)` call in `main` is part of the
external Nornir library (not in this repository); per the spec, a stage
executes across all devices that have not yet failed a prior stage. -/
def stageExecuted (hosts failed : List String) : List String :=
  hosts.filter (fun h => ¬ failed.contains h)

/-- Modelled from the spec: the failed-hosts set after a stage.  Hosts
that fail the stage are added to the running `failed_hosts` set, which
is never cleared during the run. -/
def stageFailed (st : Stage) (hosts failed : List String) : List String :=
  failed ++ (stageExecuted hosts failed).filter (fun h => ¬ st.ok h)

/-- Run a pipeline of stages in order over a host set, threading the
failed-hosts set; report, per stage, its name, the hosts that executed
it and the failed-hosts set reported after it (`nr.data.failed_hosts`,
printed after every stage in `main`). -/
def runPipeline (hosts : List String) (failed : List String) :
    List Stage → List (String × List String × List String)
  | [] => []
  | st :: rest =>
    let ex := stageExecuted hosts failed
    let f2 := stageFailed st hosts failed
    (st.name, ex, f2) :: runPipeline hosts f2 rest

/-- The failed-hosts set left after running a list of stages in order
from a given starting set. -/
def failedUpTo (hosts failed : List String) (stages : List Stage) : List String :=
  stages.foldl (fun f st => stageFailed st hosts f) failed

/-- The hosts that execute stage `j` (zero-based) of a pipeline started
with an empty failed set. -/
def executedAt (hosts : List String) (stages : List Stage) (j : Nat) : List String :=
  stageExecuted hosts (failedUpTo hosts [] (stages.take j))

/-- The failed-hosts set reported after stage `j` (zero-based) of a
pipeline started with an empty failed set. -/
def failedAfter (hosts : List String) (stages : List Stage) (j : Nat) : List String :=
  failedUpTo hosts [] (stages.take (j + 1))

/-- The outcome of one invocation of `main`. -/
inductive RunOutcome where
  | completed
  | abortedNoHosts
  | abortedAtGate (g : Nat)
deriving DecidableEq, Repr

/-- The stage names of the pipeline run by `main`, in program order
(lines 480-536). -/
def pipelineStageNames : List String :=
  ["scp_enable", "get_config_vars", "render_configs", "apply_l3_configs",
   "validate_l3", "apply_bgp_configs", "validate_bgp", "update_netbox",
   "scp_disable"]

/-- Control skeleton of `main` (lines 470-536) together with the abort
points of `kickoff` (line 152: zero hosts after the role filter ⇒
`exit()`) and `proceed` (line 115: a declined confirmation ⇒ `exit()`).
`n` is the number of hosts left by the role filter and `g1 g2 g3` the
answers to the three confirmation prompts (`True` = "y").  Returns the
outcome and the list of pipeline stages that were started. -/
def mainRun (n : Nat) (g1 g2 g3 : Bool) : RunOutcome × List String :=
  if n == 0 then (RunOutcome.abortedNoHosts, [])
  else if ¬ g1 then (RunOutcome.abortedAtGate 1, [])
  else if ¬ g2 then
    (RunOutcome.abortedAtGate 2, ["scp_enable", "get_config_vars", "render_configs"])
  else if ¬ g3 then
    (RunOutcome.abortedAtGate 3,
     ["scp_enable", "get_config_vars", "render_configs", "apply_l3_configs",
      "validate_l3"])
  else (RunOutcome.completed, pipelineStageNames)

/-- Whether the process terminated before completing the pipeline: the
two `exit()` call sites are the only early ends of `main` (Python's
`exit()` raises `SystemExit`, terminating the process). -/
def terminatedEarly : RunOutcome → Bool
  | RunOutcome.completed => false
  | RunOutcome.abortedNoHosts => true
  | RunOutcome.abortedAtGate _ => true

/-- The exit code of the process on normal completion of `main`:
falling off the end of the script yields status 0. -/
def normalExitCode : Nat := 0

/-! ## Concrete sample data

The sample config context from the script's docstring (lines 32-80),
and small concrete states used to evaluate the definitions. -/

/-- The sample config context shipped in the script's docstring. -/
def sampleCfg : ConfigVars :=
  { bgp := { asn := 65511,
             neighbors := [{ ipaddr := "172.20.12.2", remote_asn := 65512 },
                           { ipaddr := "172.20.13.3", remote_asn := 65513 }],
             rid := "1.1.1.1" },
    interfaces := [
      ("GigabitEthernet1",
       { description := "Uplink to CSR-2", ipaddr := "172.20.12.1 255.255.255.0",
         state := "up" }),
      ("GigabitEthernet2",
       { description := "Uplink to CSR-3", ipaddr := "172.20.13.1 255.255.255.0",
         state := "up" }),
      ("Loopback0",
       { description := "Router ID", ipaddr := "1.1.1.1 255.255.255.255",
         state := "up" })] }

/-- A transport whose probes all return zero packet loss. -/
def pingAllGood : String → String → PingResult :=
  fun _ _ => { success := some { packet_loss := 0 } }

/-- A sample device for concrete runs of `update_netbox`. -/
def sampleDev : Device := { id := 1, name := "csr-1" }

/-- Sample observed interface facts for `sampleDev`. -/
def sampleObserved : List (String × ObservedIntf) :=
  [("GigabitEthernet1",
    { description := "Uplink to CSR-2", mac_address := some "00:0C:29:01:02:03" }),
   ("GigabitEthernet2",
    { description := "Uplink to CSR-3", mac_address := some "00:0C:29:01:02:04" }),
   ("Loopback0", { description := "Router ID", mac_address := some "Unspecified" })]

/-- A NetBox state holding only `sampleDev`, with empty interface and IP
tables. -/
def sampleNb : NbState :=
  { devices := [{ id := 1, name := "csr-1", device_type_id := 1, device_role_id := 1,
                  site_id := 1 }],
    interfaces := [], ips := [], next_intf_id := 10 }

/-- A concrete inventory interface record for `sampleDev`. -/
def sampleR0 : NbInterface :=
  { id := 10, device_id := 1, device_display_name := "csr-1",
    name := "GigabitEthernet1", description := "Uplink to CSR-2",
    mac_address := some "00:0C:29:01:02:03" }

/-- The sample intent entry for GigabitEthernet1. -/
def sampleGi1 : IntfIntent :=
  { description := "Uplink to CSR-2", ipaddr := "172.20.12.1 255.255.255.0",
    state := "up" }

/-- The sample state with the canonical CIDR of GigabitEthernet1 already
recorded. -/
def sampleNbIp : NbState :=
  { sampleNb with ips := [{ address := "172.20.12.1/24", interface_id := 7 }] }

/-- The inventory state left by one reconciliation run of `sampleDev`
against `sampleObserved` and `sampleCfg` starting from `sampleNb`. -/
def sampleRun1 : NbState :=
  { devices := [{ id := 1, name := "csr-1", device_type_id := 2, device_role_id := 2,
                  site_id := 1 }],
    interfaces := [
      { id := 10, device_id := 1, device_display_name := "csr-1",
        name := "GigabitEthernet1", description := "Uplink to CSR-2",
        mac_address := some "00:0C:29:01:02:03" },
      { id := 11, device_id := 1, device_display_name := "csr-1",
        name := "GigabitEthernet2", description := "Uplink to CSR-3",
        mac_address := some "00:0C:29:01:02:04" },
      { id := 12, device_id := 1, device_display_name := "csr-1",
        name := "Loopback0", description := "Router ID",
        mac_address := some "EE:EE:EE:EE:EE:EE" }],
    ips := [{ address := "172.20.12.1/24", interface_id := 10 },
            { address := "172.20.13.1/24", interface_id := 11 },
            { address := "1.1.1.1/32", interface_id := 12 }],
    next_intf_id := 13 }

/-- A concrete failure scenario: the script's pipeline stages, where host
B fails the apply-L3 stage (index 3) and every other (host, stage) pair
succeeds. -/
def demoStages : List Stage :=
  pipelineStageNames.map (fun nm =>
    { name := nm, ok := fun h => !(nm == "apply_l3_configs" && h == "B") })

/-- Key uniqueness of inventory interface records: at most one record per
(device display name, interface name) — the inventory invariant of the
data model. -/
def keyUnique (l : List NbInterface) : Prop :=
  l.Pairwise (fun a b => a.device_display_name ≠ b.device_display_name ∨ a.name ≠ b.name)

/-- The failed-probe count contributed by a probe list under a given
transport. -/
def probeFailCount (ping : String → String → PingResult)
    (ps : List (String × String)) : Nat :=
  (ps.map (fun p => if pingFailed (ping p.1 p.2) then 1 else 0)).sum

/-! ## Theorems -/

/-- C7: MAC normalization maps each of the literal strings `"None"`,
`"Unspecified"` and `""` to the sentinel `EE:EE:EE:EE:EE:EE`, and maps
every other literal string to itself unchanged. -/
theorem mac_normalization_literal_strings :
    normalizeMac (some "None") = some "EE:EE:EE:EE:EE:EE" ∧
    normalizeMac (some "Unspecified") = some "EE:EE:EE:EE:EE:EE" ∧
    normalizeMac (some "") = some "EE:EE:EE:EE:EE:EE" ∧
    ∀ s : String, s ≠ "None" → s ≠ "Unspecified" → s ≠ "" →
      normalizeMac (some s) = some s := by
  refine ⟨rfl, rfl, rfl, fun s h1 h2 h3 => ?_⟩
  simp [normalizeMac, h1, h2, h3]

/-- C7 witness: a MAC string that is none of the three literals passes
through `normalizeMac` unchanged. -/
theorem mac_normalization_literal_strings_witness :
    normalizeMac (some "00:0C:29:01:02:03") = some "00:0C:29:01:02:03" :=
  mac_normalization_literal_strings.2.2.2 "00:0C:29:01:02:03"
    (by decide) (by decide) (by decide)

/-- C10: MAC normalization applies only to the three literal strings; an
actual Python `None` (modelled as `none`) is not replaced by the
sentinel, and is passed through unchanged to the inventory create or
update call by the interface-reconciliation loop body. -/
theorem mac_none_not_normalized :
    normalizeMac none = none ∧
    (∀ (dev : Device) (nbs : List NbInterface) (s : NbState) (name desc : String),
      is_interface_present nbs dev.name name = false →
      (interfacePhaseStep dev nbs s (name, { description := desc, mac_address := none })).interfaces =
        s.interfaces ++
          [{ id := s.next_intf_id, device_id := dev.id, device_display_name := dev.name,
             name := name, description := desc, mac_address := none }]) ∧
    (∀ (dev : Device) (nbs : List NbInterface) (s : NbState) (name desc : String),
      is_interface_present nbs dev.name name = true →
      (interfacePhaseStep dev nbs s (name, { description := desc, mac_address := none })).interfaces =
        s.interfaces.map (fun i =>
          if i.device_display_name == dev.name && i.name == name then
            { i with description := desc, mac_address := none }
          else i)) := by
  refine ⟨rfl, fun dev nbs s name desc h => ?_, fun dev nbs s name desc h => ?_⟩
  · simp [interfacePhaseStep, createInterface, normalizeMac, h]
  · simp [interfacePhaseStep, updateInterface, normalizeMac, h]

/-- C10 witness: with an empty snapshot the loop body creates a record
whose MAC field is the unreplaced `none`. -/
theorem mac_none_not_normalized_witness :
    (interfacePhaseStep sampleDev [] sampleNb
        ("GigabitEthernet1", { description := "d", mac_address := none })).interfaces =
      sampleNb.interfaces ++
        [{ id := sampleNb.next_intf_id, device_id := sampleDev.id,
           device_display_name := sampleDev.name, name := "GigabitEthernet1",
           description := "d", mac_address := none }] :=
  mac_none_not_normalized.2.1 sampleDev [] sampleNb "GigabitEthernet1" "d" (by decide)

/-- C8: the adjacency classifier is a pure projection of `is_up`: each
peer with `is_up = true` is classified Up, each with `is_up = false` is
classified Down, and every peer receives exactly one of these two
classifications. -/
theorem adjacency_classification (peers : List (String × PeerFacts)) :
    validate_bgp peers =
      peers.map (fun p =>
        (p.1, if p.2.is_up then AdjacencyState.up else AdjacencyState.down)) := by
  induction peers with
  | nil => rfl
  | cons p rest ih =>
    cases hp : p.2.is_up <;> simp [validate_bgp, hp] <;>
      simpa [validate_bgp] using ih

/-- C2: a probe result is classified failed exactly when it has no
`success` entry or its packet loss is at least 2; in particular packet
loss 1 passes and packet loss 2 fails, and a device reports
all-succeeded exactly when its failed-probe count is zero. -/
theorem probe_classification :
    (∀ r : PingResult,
      pingFailed r = true ↔
        r.success = none ∨ ∃ s, r.success = some s ∧ 2 ≤ s.packet_loss) ∧
    pingFailed { success := some { packet_loss := 1 } } = false ∧
    pingFailed { success := some { packet_loss := 2 } } = true ∧
    (∀ (ping : String → String → PingResult) (cfg : ConfigVars)
        (probes : List (String × String)) (f : Nat),
      validate_l3 ping cfg = some (probes, f) →
      (validateL3Report ping cfg = some true ↔ f = 0)) := by
  refine ⟨fun r => ?_, rfl, rfl, fun ping cfg probes f h => ?_⟩
  · cases hs : r.success with
    | none => simp [pingFailed, hs]
    | some s =>
      simp only [pingFailed, hs]
      constructor
      · intro hp
        refine Or.inr ⟨s, rfl, ?_⟩
        by_contra hlt
        simp [Nat.lt_of_not_le hlt] at hp
      · rintro (h | ⟨s', hs', hle⟩)
        · exact absurd h (Option.some_ne_none s)
        · obtain rfl : s = s' := Option.some_inj.mp hs'
          simp [Nat.not_lt_of_le hle]
  · rw [validateL3Report, h]
    simp

/-- C2 witness: on the sample config with a lossless transport, the
all-succeeded report is equivalent to a zero failed count. -/
theorem probe_classification_witness :
    validateL3Report pingAllGood sampleCfg = some true ↔ 0 = 0 :=
  probe_classification.2.2.2 pingAllGood sampleCfg
    [("172.20.12.1", "172.20.12.2"), ("172.20.13.1", "172.20.13.3")] 0 (by decide)

/-- C9: the pipeline completes normally (with exit code 0) exactly when
the role filter matched some host and every confirmation was accepted;
the process terminates early in exactly the two abort situations (zero
matching hosts, a declined gate), and in each abort situation no
further pipeline stage starts. -/
theorem exit_behavior (n : Nat) (g1 g2 g3 : Bool) :
    ((mainRun n g1 g2 g3).1 = RunOutcome.completed ↔
        n ≠ 0 ∧ g1 = true ∧ g2 = true ∧ g3 = true) ∧
    ((mainRun n g1 g2 g3).1 = RunOutcome.completed →
        (mainRun n g1 g2 g3).2 = pipelineStageNames ∧ normalExitCode = 0) ∧
    (terminatedEarly (mainRun n g1 g2 g3).1 = true ↔
        n = 0 ∨ g1 = false ∨ g2 = false ∨ g3 = false) ∧
    ((mainRun n g1 g2 g3).1 = RunOutcome.abortedNoHosts →
        (mainRun n g1 g2 g3).2 = []) ∧
    ((mainRun n g1 g2 g3).1 = RunOutcome.abortedAtGate 1 →
        (mainRun n g1 g2 g3).2 = pipelineStageNames.take 0) ∧
    ((mainRun n g1 g2 g3).1 = RunOutcome.abortedAtGate 2 →
        (mainRun n g1 g2 g3).2 = pipelineStageNames.take 3) ∧
    ((mainRun n g1 g2 g3).1 = RunOutcome.abortedAtGate 3 →
        (mainRun n g1 g2 g3).2 = pipelineStageNames.take 5) := by
  by_cases hn : n = 0 <;>
    cases g1 <;> cases g2 <;> cases g3 <;>
      simp [mainRun, hn, terminatedEarly, pipelineStageNames, normalExitCode]

/-- C9 witness: declining the second gate ends the run after exactly the
three stages preceding that gate, and a zero-host filter ends it before
any stage. -/
theorem exit_behavior_witness :
    (mainRun 3 true false true).2 = pipelineStageNames.take 3 ∧
    (mainRun 0 true true true).2 = [] :=
  ⟨(exit_behavior 3 true false true).2.2.2.2.2.1 (by decide),
   (exit_behavior 0 true true true).2.2.2.1 (by decide)⟩

/-- Helper for C1: the inner interface loop issues exactly the probes of
`specProbesFor`, and its failure count is the sum of the per-probe
classifications of the probes it actually issued. -/
lemma validateL3Intf_spec (ping : String → String → PingResult) (destination : String) :
    ∀ (l : List (String × IntfIntent)) (ps : List (String × String)) (f : Nat),
      validateL3Intf ping destination l = some (ps, f) →
      specProbesFor destination l = some ps ∧ f = probeFailCount ping ps := by
  intro l
  induction l with
  | nil =>
    intro ps f h
    simp only [validateL3Intf, Option.some_inj] at h
    obtain ⟨rfl, rfl⟩ := Prod.mk.injEq .. ▸ h
    simp [specProbesFor, probeFailCount]
  | cons e rest ih =>
    intro ps f h
    simp only [validateL3Intf] at h
    cases h1 : splitIpaddr e.2.ipaddr with
    | none => rw [h1] at h; simp at h
    | some sm =>
      obtain ⟨source, mask⟩ := sm
      rw [h1] at h
      simp only [Option.bind_eq_bind, Option.some_bind, Option.pure_def] at h
      cases h2 : ipInterfaceParse source mask with
      | none => rw [h2] at h; simp at h
      | some am =>
        obtain ⟨src, m⟩ := am
        rw [h2] at h
        simp only [Option.bind_eq_bind, Option.some_bind, Option.pure_def] at h
        cases h3 : ipInterfaceParse destination mask with
        | none => rw [h3] at h; simp at h
        | some dm =>
          obtain ⟨dst, m2⟩ := dm
          rw [h3] at h
          simp only [Option.bind_eq_bind, Option.some_bind, Option.pure_def] at h
          cases h4 : validateL3Intf ping destination rest with
          | none => rw [h4] at h; simp at h
          | some pf =>
            obtain ⟨ps0, f0⟩ := pf
            rw [h4] at h
            simp only [Option.bind_eq_bind, Option.some_bind, Option.pure_def] at h
            obtain ⟨hspec, hsum⟩ := ih ps0 f0 h4
            by_cases hnet : (network src m == network dst m) = true
            · have hq : network src m = network dst m := beq_iff_eq.mp hnet
              rw [if_pos hnet] at h
              simp only [Option.some_inj] at h
              obtain ⟨hps, hf⟩ := Prod.mk.injEq .. ▸ h
              subst hps hf
              constructor
              · simp [specProbesFor, h1, h2, h3, hspec, hq]
              · simp [probeFailCount, hsum]
            · have hq : ¬ network src m = network dst m := by simpa using hnet
              rw [if_neg hnet] at h
              simp only [Option.some_inj] at h
              obtain ⟨hps, hf⟩ := Prod.mk.injEq .. ▸ h
              subst hps hf
              constructor
              · simp [specProbesFor, h1, h2, h3, hspec, hq]
              · exact hsum

/-- Helper for C1: the outer neighbor loop issues the concatenation of
the per-neighbor spec probe lists, with the failure counts summed. -/
lemma validateL3Neighbors_spec (ping : String → String → PingResult)
    (interfaces : List (String × IntfIntent)) :
    ∀ (nbs : List Neighbor) (ps : List (String × String)) (f : Nat),
      validateL3Neighbors ping interfaces nbs = some (ps, f) →
      specProbesNeighbors interfaces nbs = some ps ∧ f = probeFailCount ping ps := by
  intro nbs
  induction nbs with
  | nil =>
    intro ps f h
    simp only [validateL3Neighbors, Option.some_inj] at h
    obtain ⟨rfl, rfl⟩ := Prod.mk.injEq .. ▸ h
    simp [specProbesNeighbors, probeFailCount]
  | cons nb rest ih =>
    intro ps f h
    simp only [validateL3Neighbors] at h
    cases h1 : validateL3Intf ping nb.ipaddr interfaces with
    | none => rw [h1] at h; simp at h
    | some pf1 =>
      obtain ⟨ps1, f1⟩ := pf1
      rw [h1] at h
      simp only [Option.bind_eq_bind, Option.some_bind, Option.pure_def] at h
      cases h2 : validateL3Neighbors ping interfaces rest with
      | none => rw [h2] at h; simp at h
      | some pf2 =>
        obtain ⟨ps2, f2⟩ := pf2
        rw [h2] at h
        simp only [Option.bind_eq_bind, Option.some_bind, Option.pure_def, Option.some_inj] at h
        obtain ⟨hps, hf⟩ := Prod.mk.injEq .. ▸ h
        subst hps hf
        obtain ⟨hs1, hc1⟩ := validateL3Intf_spec ping nb.ipaddr interfaces ps1 f1 h1
        obtain ⟨hs2, hc2⟩ := ih ps2 f2 h2
        constructor
        · simp [specProbesNeighbors, hs1, hs2]
        · simp [probeFailCount, hc1, hc2]

/-- C1: whenever the Layer-3 validation task completes, the probes it
issued are exactly one per neighbor/interface pair whose networks agree
under the local interface's mask (`specProbes`), in particular one per
matching interface for a neighbor matching several; and its failed-probe
count is the sum of the classifications of the issued probes alone, so
disjoint pairs contribute no probe and no failure. -/
theorem connectivity_probe_selection (ping : String → String → PingResult)
    (cfg : ConfigVars) (probes : List (String × String)) (f : Nat)
    (h : validate_l3 ping cfg = some (probes, f)) :
    specProbes cfg = some probes ∧ f = probeFailCount ping probes :=
  validateL3Neighbors_spec ping cfg.interfaces cfg.bgp.neighbors probes f h

/-- C1 witness: on the docstring's sample config with a lossless
transport, the issued probes are the two same-network pairs and the
failure count is their summed classification. -/
theorem connectivity_probe_selection_witness :
    specProbes sampleCfg =
      some [("172.20.12.1", "172.20.12.2"), ("172.20.13.1", "172.20.13.3")] ∧
    (0 : Nat) = probeFailCount pingAllGood
      [("172.20.12.1", "172.20.12.2"), ("172.20.13.1", "172.20.13.3")] :=
  connectivity_probe_selection pingAllGood sampleCfg
    [("172.20.12.1", "172.20.12.2"), ("172.20.13.1", "172.20.13.3")] 0 (by decide)

/-- Helper: membership in a stage's execution cohort. -/
lemma mem_stageExecuted (hosts failed : List String) (x : String) :
    x ∈ stageExecuted hosts failed ↔ x ∈ hosts ∧ x ∉ failed := by
  simp [stageExecuted]

/-- Helper: membership in the failed set produced by one stage. -/
lemma mem_stageFailed (st : Stage) (hosts failed : List String) (x : String) :
    x ∈ stageFailed st hosts failed ↔
      x ∈ failed ∨ (x ∈ hosts ∧ x ∉ failed ∧ st.ok x = false) := by
  simp [stageFailed, mem_stageExecuted, List.mem_filter]
  constructor
  · rintro (h | ⟨⟨h1, h2⟩, h3⟩)
    · exact Or.inl h
    · exact Or.inr ⟨h1, h2, by simpa using h3⟩
  · rintro (h | ⟨h1, h2, h3⟩)
    · exact Or.inl h
    · exact Or.inr ⟨⟨h1, h2⟩, by simpa using h3⟩

/-- Helper: a host is in the failed set after a stage list iff it started
failed or it is a host that fails some stage of the list. -/
lemma mem_failedUpTo (hosts : List String) (x : String) :
    ∀ (stages : List Stage) (failed : List String),
      x ∈ failedUpTo hosts failed stages ↔
        x ∈ failed ∨ (x ∈ hosts ∧ x ∉ failed ∧ ∃ st ∈ stages, st.ok x = false) := by
  intro stages
  induction stages with
  | nil => intro failed; simp [failedUpTo]
  | cons st rest ih =>
    intro failed
    have hstep : failedUpTo hosts failed (st :: rest) =
        failedUpTo hosts (stageFailed st hosts failed) rest := rfl
    rw [hstep, ih]
    rw [mem_stageFailed]
    constructor
    · rintro ((h | ⟨h1, h2, h3⟩) | ⟨h1, h2, h3⟩)
      · exact Or.inl h
      · exact Or.inr ⟨h1, h2, st, List.mem_cons_self st rest, h3⟩
      · push_neg at h2
        obtain ⟨st', hst', hok⟩ := h3
        exact Or.inr ⟨h1, h2.1, st', List.mem_cons_of_mem st hst', hok⟩
    · rintro (h | ⟨h1, h2, st', hst', hok⟩)
      · exact Or.inl (Or.inl h)
      · rcases List.mem_cons.mp hst' with rfl | hmem
        · exact Or.inl (Or.inr ⟨h1, h2, hok⟩)
        · by_cases hfirst : st.ok x = true
          · refine Or.inr ⟨h1, ?_, st', hmem, hok⟩
            push_neg
            exact ⟨h2, fun _ _ => by simp [hfirst]⟩
          · exact Or.inl (Or.inr ⟨h1, h2, Bool.eq_false_iff.mpr hfirst⟩)

/-- Helper: the pipeline report has one entry per stage. -/
lemma runPipeline_length (hosts : List String) :
    ∀ (stages : List Stage) (failed : List String),
      (runPipeline hosts failed stages).length = stages.length := by
  intro stages
  induction stages with
  | nil => intro failed; rfl
  | cons st rest ih => intro failed; simp [runPipeline, ih]

/-- Helper: the executed cohort and reported failed set of each pipeline
report entry, in terms of `failedUpTo`. -/
lemma runPipeline_entries (hosts : List String) :
    ∀ (stages : List Stage) (failed : List String) (j : Nat)
      (hj : j < (runPipeline hosts failed stages).length),
      ((runPipeline hosts failed stages).get ⟨j, hj⟩).2 =
        (stageExecuted hosts (failedUpTo hosts failed (stages.take j)),
         failedUpTo hosts failed (stages.take (j + 1))) := by
  intro stages
  induction stages with
  | nil => intro failed j hj; simp [runPipeline] at hj
  | cons st rest ih =>
    intro failed j hj
    cases j with
    | zero => simp [runPipeline, failedUpTo]
    | succ j =>
      have hj' : j < (runPipeline hosts (stageFailed st hosts failed) rest).length := by
        simpa [runPipeline] using hj
      have := ih (stageFailed st hosts failed) j hj'
      simpa [runPipeline, failedUpTo] using this

/-- Helper: membership in a take, through indices. -/
lemma mem_take_stages (l : List Stage) (j : Nat) (st : Stage) :
    st ∈ l.take j ↔ ∃ i, ∃ hi : i < l.length, i < j ∧ l.get ⟨i, hi⟩ = st := by
  constructor
  · intro h
    obtain ⟨⟨i, hi⟩, hget⟩ := List.mem_iff_get.mp h
    have hlen : i < l.length := lt_of_lt_of_le hi (by simpa using List.length_take_le j l)
    refine ⟨i, hlen, lt_of_lt_of_le hi ?_, ?_⟩
    · simpa using List.length_take_le' ..
    · rw [← hget]
      simp [List.get_take']
  · rintro ⟨i, hi, hij, rfl⟩
    have hlen : i < (l.take j).length := by
      simp [List.length_take]
      exact ⟨hij, hi⟩
    have : (l.take j).get ⟨i, hlen⟩ = l.get ⟨i, hi⟩ := by
      simp [List.get_take']
    rw [← this]
    exact List.get_mem ..

/-- C5: per-device failure isolation.  The report entries of a pipeline
run are given by `executedAt`/`failedAfter`; a device (here `b`) that
first fails at stage `k` executes stages `0..k`, executes none of the
later stages, appears in the reported failed set from stage `k` onward
and in no earlier one, while a device that fails no stage executes every
stage and never appears in a failed set. -/
theorem stage_isolation (stages : List Stage) (hosts : List String) (b : String)
    (k : Nat) (hk : k < stages.length) (hb : b ∈ hosts)
    (hbefore : ∀ j (hj : j < stages.length), j < k → (stages.get ⟨j, hj⟩).ok b = true)
    (hfail : (stages.get ⟨k, hk⟩).ok b = false) :
    (∀ j (hj : j < (runPipeline hosts [] stages).length),
      ((runPipeline hosts [] stages).get ⟨j, hj⟩).2 =
        (executedAt hosts stages j, failedAfter hosts stages j)) ∧
    (∀ j, j ≤ k → b ∈ executedAt hosts stages j) ∧
    (∀ j, k < j → b ∉ executedAt hosts stages j) ∧
    (∀ j, k ≤ j → b ∈ failedAfter hosts stages j) ∧
    (∀ j, j < k → b ∉ failedAfter hosts stages j) ∧
    (∀ a, a ∈ hosts → (∀ st ∈ stages, st.ok a = true) →
      ∀ j, a ∈ executedAt hosts stages j ∧ a ∉ failedAfter hosts stages j) := by
  have hnotin_take : ∀ j, j ≤ k → b ∉ failedUpTo hosts [] (stages.take j) := by
    intro j hjk hmem
    rw [mem_failedUpTo] at hmem
    rcases hmem with h | ⟨_, _, st, hst, hok⟩
    · simp at h
    · obtain ⟨i, hi, hij, rfl⟩ := (mem_take_stages stages j st).mp hst
      have : i < k := lt_of_lt_of_le hij hjk
      rw [hbefore i hi this] at hok
      simp at hok
  refine ⟨?_, ?_, ?_, ?_, ?_, ?_⟩
  · intro j hj
    exact runPipeline_entries hosts stages [] j hj
  · intro j hjk
    rw [executedAt, mem_stageExecuted]
    exact ⟨hb, hnotin_take j hjk⟩
  · intro j hjk hmem
    rw [executedAt, mem_stageExecuted] at hmem
    refine hmem.2 ?_
    rw [mem_failedUpTo]
    refine Or.inr ⟨hb, by simp, stages.get ⟨k, hk⟩, ?_, hfail⟩
    exact (mem_take_stages stages j _).mpr ⟨k, hk, hjk, rfl⟩
  · intro j hjk
    rw [failedAfter, mem_failedUpTo]
    refine Or.inr ⟨hb, by simp, stages.get ⟨k, hk⟩, ?_, hfail⟩
    exact (mem_take_stages stages (j + 1) _).mpr ⟨k, hk, Nat.lt_succ_of_le hjk, rfl⟩
  · intro j hjk
    exact hnotin_take (j + 1) (Nat.succ_le_of_lt hjk)
  · intro a ha hok j
    have hnot : ∀ i, a ∉ failedUpTo hosts [] (stages.take i) := by
      intro i hmem
      rw [mem_failedUpTo] at hmem
      rcases hmem with h | ⟨_, _, st, hst, hfalse⟩
      · simp at h
      · have := hok st (List.take_subset i stages hst)
        rw [this] at hfalse
        simp at hfalse
    exact ⟨(mem_stageExecuted ..).mpr ⟨ha, hnot j⟩, hnot (j + 1)⟩

/-- C5 witness: with hosts A, B, C where only B fails the fourth stage
(apply-L3), A and C execute the fifth stage (validate-L3) while B does
not, and B is reported failed from the fourth stage onward. -/
theorem stage_isolation_witness :
    "A" ∈ executedAt ["A", "B", "C"] demoStages 4 ∧
    "B" ∉ executedAt ["A", "B", "C"] demoStages 4 ∧
    "B" ∈ failedAfter ["A", "B", "C"] demoStages 3 ∧
    "B" ∉ failedAfter ["A", "B", "C"] demoStages 2 := by
  have h := stage_isolation demoStages ["A", "B", "C"] "B" 3 (by decide) (by decide)
    (by intro j hj hjk; interval_cases j <;> rfl)
    (by decide)
  exact ⟨(h.2.2.2.2.2 "A" (by decide) (by decide) 4).1,
    h.2.2.1 4 (by decide), h.2.2.2.1 3 (by decide), h.2.2.2.2.1 2 (by decide)⟩

/-- Helper: one upsert step never touches the IP table or the device
table. -/
lemma interfacePhaseStep_ips (dev : Device) (nbs : List NbInterface)
    (s : NbState) (e : String × ObservedIntf) :
    (interfacePhaseStep dev nbs s e).ips = s.ips ∧
    (interfacePhaseStep dev nbs s e).devices = s.devices := by
  rw [interfacePhaseStep]
  split <;> simp [createInterface, updateInterface]

/-- Helper: the interface fold never touches the IP or device table. -/
lemma foldl_interfaceStep_ips (dev : Device) (nbs : List NbInterface) :
    ∀ (obs : List (String × ObservedIntf)) (s : NbState),
      (obs.foldl (interfacePhaseStep dev nbs) s).ips = s.ips ∧
      (obs.foldl (interfacePhaseStep dev nbs) s).devices = s.devices := by
  intro obs
  induction obs with
  | nil => intro s; exact ⟨rfl, rfl⟩
  | cons a rest ih =>
    intro s
    have hstep := interfacePhaseStep_ips dev nbs s a
    have hrest := ih (interfacePhaseStep dev nbs s a)
    exact ⟨hrest.1.trans hstep.1, hrest.2.trans hstep.2⟩

/-- Helper: each record after one upsert step either keeps the key fields
of a record of the previous state, or is the newly created record for
the observed interface. -/
lemma interfacePhaseStep_key_origin (dev : Device) (nbs : List NbInterface)
    (s : NbState) (e : String × ObservedIntf) :
    ∀ r ∈ (interfacePhaseStep dev nbs s e).interfaces,
      (∃ r0 ∈ s.interfaces, r0.name = r.name ∧
        r0.device_display_name = r.device_display_name ∧ r0.device_id = r.device_id) ∨
      (r.name = e.1 ∧ r.device_display_name = dev.name ∧ r.device_id = dev.id) := by
  intro r hr
  rw [interfacePhaseStep] at hr
  split at hr
  · simp only [createInterface, List.mem_append, List.mem_singleton] at hr
    rcases hr with h | h
    · exact Or.inl ⟨r, h, rfl, rfl, rfl⟩
    · subst h; exact Or.inr ⟨rfl, rfl, rfl⟩
  · simp only [updateInterface, List.mem_map] at hr
    obtain ⟨r0, h0, hf⟩ := hr
    subst hf
    left
    refine ⟨r0, h0, ?_, ?_, ?_⟩ <;> (split <;> rfl)

/-- Helper: one upsert step never deletes a record: every record of the
previous state keeps its identity and key fields. -/
lemma interfacePhaseStep_preserves (dev : Device) (nbs : List NbInterface)
    (s : NbState) (e : String × ObservedIntf) :
    ∀ r ∈ s.interfaces, ∃ q ∈ (interfacePhaseStep dev nbs s e).interfaces,
      q.id = r.id ∧ q.device_id = r.device_id ∧
      q.device_display_name = r.device_display_name ∧ q.name = r.name := by
  intro r hr
  rw [interfacePhaseStep]
  split
  · exact ⟨r, by simp [createInterface, hr], rfl, rfl, rfl, rfl⟩
  · rw [updateInterface]
    refine ⟨_, List.mem_map_of_mem _ hr, ?_, ?_, ?_, ?_⟩ <;> (dsimp only; split <;> rfl)

/-- Helper: the whole interface fold never deletes a record. -/
lemma foldl_interfaceStep_preserves (dev : Device) (nbs : List NbInterface) :
    ∀ (obs : List (String × ObservedIntf)) (s : NbState),
      ∀ r ∈ s.interfaces, ∃ q ∈ (obs.foldl (interfacePhaseStep dev nbs) s).interfaces,
        q.id = r.id ∧ q.device_id = r.device_id ∧
        q.device_display_name = r.device_display_name ∧ q.name = r.name := by
  intro obs
  induction obs with
  | nil => intro s r hr; exact ⟨r, hr, rfl, rfl, rfl, rfl⟩
  | cons a rest ih =>
    intro s r hr
    obtain ⟨q, hq, h1, h2, h3, h4⟩ := interfacePhaseStep_preserves dev nbs s a r hr
    obtain ⟨p, hp, g1, g2, g3, g4⟩ := ih (interfacePhaseStep dev nbs s a) q hq
    exact ⟨p, hp, g1.trans h1, g2.trans h2, g3.trans h3, g4.trans h4⟩

/-- Helper: one upsert step creates exactly one record when the observed
interface is absent from the snapshot, and none otherwise. -/
lemma interfacePhaseStep_length (dev : Device) (nbs : List NbInterface)
    (s : NbState) (e : String × ObservedIntf) :
    (interfacePhaseStep dev nbs s e).interfaces.length =
      s.interfaces.length +
        (if is_interface_present nbs dev.name e.1 then 0 else 1) := by
  rw [interfacePhaseStep]
  split
  · rename_i h
    simp [createInterface, h]
  · rename_i h
    rw [not_not] at h
    simp [updateInterface, h]

/-- Helper: the interface fold creates exactly one record per observed
interface absent from the snapshot. -/
lemma foldl_interfaceStep_length (dev : Device) (nbs : List NbInterface) :
    ∀ (obs : List (String × ObservedIntf)) (s : NbState),
      (obs.foldl (interfacePhaseStep dev nbs) s).interfaces.length =
        s.interfaces.length +
          (obs.filter (fun e => !(is_interface_present nbs dev.name e.1))).length := by
  intro obs
  induction obs with
  | nil => intro s; simp
  | cons a rest ih =>
    intro s
    have hstep := interfacePhaseStep_length dev nbs s a
    have hrest := ih (interfacePhaseStep dev nbs s a)
    by_cases hpres : is_interface_present nbs dev.name a.1 = true
    · rw [List.foldl_cons, hrest, hstep, if_pos hpres,
        List.filter_cons_of_neg (by simp [hpres])]
      omega
    · rw [List.foldl_cons, hrest, hstep, if_neg hpres,
        List.filter_cons_of_pos (by simp [Bool.eq_false_iff.mpr hpres])]
      simp only [List.length_cons]
      omega

/-- Helper: if no record of the state carries a given key and the step
processes a different interface name, no record of the next state
carries the key either. -/
lemma interfacePhaseStep_no_key (dev : Device) (nbs : List NbInterface)
    (s : NbState) (e : String × ObservedIntf) (nm : String) (hne : e.1 ≠ nm)
    (h : ∀ r ∈ s.interfaces, ¬(r.device_display_name = dev.name ∧ r.name = nm)) :
    ∀ r ∈ (interfacePhaseStep dev nbs s e).interfaces,
      ¬(r.device_display_name = dev.name ∧ r.name = nm) := by
  intro r hr hcontra
  rcases interfacePhaseStep_key_origin dev nbs s e r hr with
    ⟨r0, h0, hn, hd, _⟩ | ⟨hn, _, _⟩
  · exact h r0 h0 ⟨hd.trans hcontra.1, hn.trans hcontra.2⟩
  · exact hne (hn.symm.trans hcontra.2)

/-- Helper: an upsert step for a different interface name preserves the
established record values of a key. -/
lemma interfacePhaseStep_matches_of_ne (dev : Device) (nbs : List NbInterface)
    (s : NbState) (e : String × ObservedIntf) (nm : String) (o : ObservedIntf)
    (hne : e.1 ≠ nm) (h : recordMatches dev nm o s) :
    recordMatches dev nm o (interfacePhaseStep dev nbs s e) := by
  intro r hr hd hn
  rw [interfacePhaseStep] at hr
  split at hr
  · simp only [createInterface, List.mem_append, List.mem_singleton] at hr
    rcases hr with hmem | hnew
    · exact h r hmem hd hn
    · exfalso; apply hne; rw [← hn, hnew]
  · simp only [updateInterface, List.mem_map] at hr
    obtain ⟨r0, h0, hf⟩ := hr
    subst hf
    by_cases hc : (r0.device_display_name == dev.name && r0.name == e.1) = true
    · rw [if_pos hc] at hd hn
      have hname : r0.name = e.1 := by
        simp only [Bool.and_eq_true, beq_iff_eq] at hc
        exact hc.2
      have h2 : r0.name = nm := hn
      exact absurd (by rw [← hname]; exact h2) hne
    · rw [if_neg hc] at hd hn ⊢
      exact h r0 h0 hd hn

/-- Helper: the fold over interfaces not carrying a given name preserves
the established record values for that name. -/
lemma foldl_matches_of_not_mem (dev : Device) (nbs : List NbInterface)
    (nm : String) (o : ObservedIntf) :
    ∀ (obs : List (String × ObservedIntf)) (s : NbState),
      nm ∉ obs.map Prod.fst → recordMatches dev nm o s →
      recordMatches dev nm o (obs.foldl (interfacePhaseStep dev nbs) s) := by
  intro obs
  induction obs with
  | nil => intro s _ h; exact h
  | cons a rest ih =>
    intro s hnm h
    simp only [List.map_cons, List.mem_cons, not_or] at hnm
    refine ih (interfacePhaseStep dev nbs s a) hnm.2 ?_
    exact interfacePhaseStep_matches_of_ne dev nbs s a nm o
      (fun hcontra => hnm.1 hcontra.symm) h

/-- Helper: the upsert step for an observed interface establishes its
record values, provided that when it creates, no record already carried
the key. -/
lemma interfacePhaseStep_establishes (dev : Device) (nbs : List NbInterface)
    (s : NbState) (e : String × ObservedIntf)
    (hnm : is_interface_present nbs dev.name e.1 = false →
      ∀ r ∈ s.interfaces, ¬(r.device_display_name = dev.name ∧ r.name = e.1)) :
    recordMatches dev e.1 e.2 (interfacePhaseStep dev nbs s e) := by
  intro r hr hd hn
  rw [interfacePhaseStep] at hr
  split at hr
  · rename_i hpres
    simp only [createInterface, List.mem_append, List.mem_singleton] at hr
    rcases hr with hmem | hnew
    · exact absurd ⟨hd, hn⟩ (hnm (Bool.eq_false_iff.mpr hpres) r hmem)
    · subst hnew; exact ⟨rfl, rfl⟩
  · simp only [updateInterface, List.mem_map] at hr
    obtain ⟨r0, h0, hf⟩ := hr
    subst hf
    by_cases hc : (r0.device_display_name == dev.name && r0.name == e.1) = true
    · rw [if_pos hc]
      exact ⟨rfl, rfl⟩
    · rw [if_neg hc] at hd hn
      exfalso
      apply hc
      simp [hd, hn]

/-- Helper: after the interface fold, every observed interface's key
carries the observed description and normalized MAC. -/
lemma foldl_values (dev : Device) (nbs : List NbInterface) :
    ∀ (obs : List (String × ObservedIntf)) (s : NbState),
      (obs.map Prod.fst).Nodup →
      (∀ e ∈ obs, is_interface_present nbs dev.name e.1 = false →
        ∀ r ∈ s.interfaces, ¬(r.device_display_name = dev.name ∧ r.name = e.1)) →
      ∀ e ∈ obs, recordMatches dev e.1 e.2 (obs.foldl (interfacePhaseStep dev nbs) s) := by
  intro obs
  induction obs with
  | nil => intro s _ _ e he; exact absurd he (List.not_mem_nil e)
  | cons a rest ih =>
    intro s hnodup hnm e he
    simp only [List.map_cons, List.nodup_cons] at hnodup
    obtain ⟨hna, hnodup2⟩ := hnodup
    rcases List.mem_cons.mp he with rfl | hmem
    · have h1 : recordMatches dev e.1 e.2 (interfacePhaseStep dev nbs s e) :=
        interfacePhaseStep_establishes dev nbs s e
          (hnm e (List.mem_cons_self e rest))
      exact foldl_matches_of_not_mem dev nbs e.1 e.2 rest _ hna h1
    · refine ih (interfacePhaseStep dev nbs s a) hnodup2 ?_ e hmem
      intro e2 he2 hpres
      have hne : a.1 ≠ e2.1 := by
        intro hcontra
        exact hna (hcontra ▸ List.mem_map_of_mem Prod.fst he2)
      exact interfacePhaseStep_no_key dev nbs s a e2.1 hne
        (hnm e2 (List.mem_cons_of_mem a he2) hpres)

/-- Helper: after the interface fold, every observed interface has a
record keyed to it on the device. -/
lemma foldl_presence (dev : Device) (nbs : List NbInterface) :
    ∀ (obs : List (String × ObservedIntf)) (s : NbState),
      (∀ r ∈ nbs, ∃ q ∈ s.interfaces,
        q.device_display_name = r.device_display_name ∧ q.name = r.name ∧
        q.device_id = dev.id) →
      ∀ e ∈ obs, ∃ q ∈ (obs.foldl (interfacePhaseStep dev nbs) s).interfaces,
        q.device_display_name = dev.name ∧ q.name = e.1 ∧ q.device_id = dev.id := by
  intro obs
  induction obs with
  | nil => intro s _ e he; exact absurd he (List.not_mem_nil e)
  | cons a rest ih =>
    intro s hsnap e he
    rcases List.mem_cons.mp he with rfl | hmem
    · by_cases hpres : is_interface_present nbs dev.name e.1 = true
      · obtain ⟨r, hrnbs, hkey⟩ := List.any_eq_true.mp hpres
        simp only [Bool.and_eq_true, beq_iff_eq] at hkey
        obtain ⟨q, hq, hqd, hqn, hqi⟩ := hsnap r hrnbs
        obtain ⟨p, hp, _, p2, p3, p4⟩ :=
          foldl_interfaceStep_preserves dev nbs (e :: rest) s q hq
        exact ⟨p, hp, by rw [p3, hqd, hkey.2], by rw [p4, hqn, hkey.1],
          by rw [p2, hqi]⟩
      · have hnew : (⟨s.next_intf_id, dev.id, dev.name, e.1, e.2.description,
            normalizeMac e.2.mac_address⟩ : NbInterface) ∈
            (interfacePhaseStep dev nbs s e).interfaces := by
          rw [interfacePhaseStep, if_pos (by simpa using hpres)]
          simp [createInterface]
        obtain ⟨p, hp, _, p2, p3, p4⟩ :=
          foldl_interfaceStep_preserves dev nbs rest (interfacePhaseStep dev nbs s e)
            _ hnew
        exact ⟨p, hp, p3, p4, p2⟩
    · refine ih (interfacePhaseStep dev nbs s a) ?_ e hmem
      intro r hrnbs
      obtain ⟨q, hq, hqd, hqn, hqi⟩ := hsnap r hrnbs
      obtain ⟨p, hp, _, p2, p3, p4⟩ := interfacePhaseStep_preserves dev nbs s a q hq
      exact ⟨p, hp, p3.trans hqd, p4.trans hqn, p2.trans hqi⟩

/-- Helper: the interface fold preserves the consistency between display
name and device id. -/
lemma foldl_consistent (dev : Device) (nbs : List NbInterface) :
    ∀ (obs : List (String × ObservedIntf)) (s : NbState),
      (∀ r ∈ s.interfaces, (r.device_display_name = dev.name ↔ r.device_id = dev.id)) →
      ∀ r ∈ (obs.foldl (interfacePhaseStep dev nbs) s).interfaces,
        (r.device_display_name = dev.name ↔ r.device_id = dev.id) := by
  intro obs
  induction obs with
  | nil => intro s h; exact h
  | cons a rest ih =>
    intro s h
    refine ih (interfacePhaseStep dev nbs s a) ?_
    intro r hr
    rcases interfacePhaseStep_key_origin dev nbs s a r hr with
      ⟨r0, h0, _, hd, hdid⟩ | ⟨_, hd, hdid⟩
    · have := h r0 h0
      rw [hd, hdid] at this
      exact this
    · simp [hd, hdid]

/-- Helper: the interface fold preserves key uniqueness of the inventory
interface table. -/
lemma foldl_keyUnique (dev : Device) (nbs : List NbInterface) :
    ∀ (obs : List (String × ObservedIntf)) (s : NbState),
      (obs.map Prod.fst).Nodup →
      (∀ e ∈ obs, is_interface_present nbs dev.name e.1 = false →
        ∀ r ∈ s.interfaces, ¬(r.device_display_name = dev.name ∧ r.name = e.1)) →
      keyUnique s.interfaces →
      keyUnique (obs.foldl (interfacePhaseStep dev nbs) s).interfaces := by
  intro obs
  induction obs with
  | nil => intro s _ _ h; exact h
  | cons a rest ih =>
    intro s hnodup hnm huniq
    simp only [List.map_cons, List.nodup_cons] at hnodup
    obtain ⟨hna, hnodup2⟩ := hnodup
    refine ih (interfacePhaseStep dev nbs s a) hnodup2 ?_ ?_
    · intro e2 he2 hpres
      have hne : a.1 ≠ e2.1 := by
        intro hcontra
        exact hna (hcontra ▸ List.mem_map_of_mem Prod.fst he2)
      exact interfacePhaseStep_no_key dev nbs s a e2.1 hne
        (hnm e2 (List.mem_cons_of_mem a he2) hpres)
    · rw [interfacePhaseStep]
      split
      · rename_i hpres
        rw [createInterface, keyUnique]
        simp only [List.pairwise_append, List.pairwise_singleton, true_and,
          List.mem_singleton]
        refine ⟨huniq, ?_⟩
        intro r0 h0 r1 h1
        subst h1
        have := hnm a (List.mem_cons_self a rest) (Bool.eq_false_iff.mpr hpres) r0 h0
        rw [not_and_or] at this
        rcases this with h | h
        · exact Or.inl (by simpa using h)
        · exact Or.inr (by simpa using h)
      · rw [updateInterface, keyUnique]
        refine List.Pairwise.map _ ?_ huniq
        intro r0 r1 hrel
        rcases hrel with h | h
        · exact Or.inl (by split <;> split <;> exact h)
        · exact Or.inr (by split <;> split <;> exact h)

/-- Helper: under display-name/device-id consistency, absence from the
device's interface snapshot means no record in the whole table carries
the key. -/
lemma initial_no_key (dev : Device) (s : NbState)
    (hcons : ∀ r ∈ s.interfaces, (r.device_display_name = dev.name ↔ r.device_id = dev.id))
    (nm : String)
    (hpres : is_interface_present (getInterfaces s dev.id) dev.name nm = false) :
    ∀ r ∈ s.interfaces, ¬(r.device_display_name = dev.name ∧ r.name = nm) := by
  intro r hr hcontra
  have hdid : r.device_id = dev.id := (hcons r hr).mp hcontra.1
  have hmem : r ∈ getInterfaces s dev.id := by
    rw [getInterfaces, List.mem_filter]
    exact ⟨hr, by simp [hdid]⟩
  have : is_interface_present (getInterfaces s dev.id) dev.name nm = true := by
    rw [is_interface_present, List.any_eq_true]
    exact ⟨r, hmem, by simp [hcontra.1, hcontra.2]⟩
  rw [this] at hpres
  exact absurd hpres (by simp)

/-- Helper: mapping a function that fixes every element is the identity. -/
lemma map_id_of_mem {α : Type} (f : α → α) :
    ∀ l : List α, (∀ a ∈ l, f a = a) → l.map f = l := by
  intro l
  induction l with
  | nil => intro _; rfl
  | cons a rest ih =>
    intro h
    rw [List.map_cons, h a (List.mem_cons_self a rest),
      ih (fun x hx => h x (List.mem_cons_of_mem a hx))]

/-- Helper: updating an interface whose records already carry the target
values leaves the state unchanged. -/
lemma updateInterface_id (dev : Device) (nm : String) (o : ObservedIntf) (s : NbState)
    (h : recordMatches dev nm o s) :
    updateInterface s dev.name nm o.description (normalizeMac o.mac_address) = s := by
  rw [updateInterface]
  have hmap : s.interfaces.map (fun i =>
      if i.device_display_name == dev.name && i.name == nm then
        { i with description := o.description,
                 mac_address := normalizeMac o.mac_address }
      else i) = s.interfaces := by
    refine map_id_of_mem _ s.interfaces ?_
    intro r hr
    by_cases hc : (r.device_display_name == dev.name && r.name == nm) = true
    · rw [if_pos hc]
      simp only [Bool.and_eq_true, beq_iff_eq] at hc
      obtain ⟨hd, hm⟩ := h r hr hc.1 hc.2
      cases r
      simp only [NbInterface.mk.injEq, and_true, true_and] at hd hm ⊢
      exact ⟨hd.symm, hm.symm⟩
    · rw [if_neg hc]
  rw [hmap]

/-- Helper: when every observed interface is already present with its
target values, the interface-reconciliation phase is the identity. -/
lemma interfacePhase_identity (dev : Device) (s : NbState)
    (obs : List (String × ObservedIntf))
    (hpres : ∀ e ∈ obs, is_interface_present (getInterfaces s dev.id) dev.name e.1 = true)
    (hval : ∀ e ∈ obs, recordMatches dev e.1 e.2 s) :
    interfacePhase dev s obs = s := by
  rw [interfacePhase]
  induction obs with
  | nil => rfl
  | cons a rest ih =>
    have hstep : interfacePhaseStep dev (getInterfaces s dev.id) s a = s := by
      rw [interfacePhaseStep,
        if_neg (by simp [hpres a (List.mem_cons_self a rest)])]
      exact updateInterface_id dev a.1 a.2 s (hval a (List.mem_cons_self a rest))
    rw [List.foldl_cons, hstep]
    exact ih (fun e he => hpres e (List.mem_cons_of_mem a he))
      (fun e he => hval e (List.mem_cons_of_mem a he))

/-- Helper: the inner IP loop when the pre-loop lookup was empty: it
creates one IP record per matching snapshot interface. -/
lemma ipAttach_foldl_empty (n c : String) :
    ∀ (nbs : List NbInterface) (a : NbState × List String),
      nbs.foldl (ipAttach n c true) a =
        ({ a.1 with ips := (a.1.ips ++ (nbs.filter (fun r => n == r.name)).map
            (fun r => ({ address := c, interface_id := r.id } : NbIp))) }, a.2) := by
  intro nbs
  induction nbs with
  | nil => intro a; simp
  | cons r rest ih =>
    intro a
    by_cases hc : (n == r.name) = true
    · have hstep : ipAttach n c true a r = (createIpAddress a.1 c r.id, a.2) := by
        rw [ipAttach, if_pos hc]
        simp
      rw [List.foldl_cons, hstep, ih, List.filter_cons, if_pos hc, List.map_cons]
      simp [createIpAddress]
    · have hstep : ipAttach n c true a r = a := by rw [ipAttach, if_neg hc]
      rw [List.foldl_cons, hstep, ih, List.filter_cons, if_neg hc]

/-- Helper: the inner IP loop when the pre-loop lookup was nonempty: it
only flags the address, once per matching snapshot interface. -/
lemma ipAttach_foldl_nonempty (n c : String) :
    ∀ (nbs : List NbInterface) (a : NbState × List String),
      nbs.foldl (ipAttach n c false) a =
        (a.1, a.2 ++ (nbs.filter (fun r => n == r.name)).map (fun _ => c)) := by
  intro nbs
  induction nbs with
  | nil => intro a; simp
  | cons r rest ih =>
    intro a
    by_cases hc : (n == r.name) = true
    · have hstep : ipAttach n c false a r = (a.1, a.2 ++ [c]) := by
        rw [ipAttach, if_pos hc]
        simp
      rw [List.foldl_cons, hstep, ih, List.filter_cons, if_pos hc, List.map_cons]
      simp
    · have hstep : ipAttach n c false a r = a := by rw [ipAttach, if_neg hc]
      rw [List.foldl_cons, hstep, ih, List.filter_cons, if_neg hc]

/-- Helper: inversion of a successful IP-reconciliation step: both parses
succeeded and the result is the inner loop's fold. -/
lemma ipPhaseStep_inv (nbs : List NbInterface) (acc a2 : NbState × List String)
    (e : String × IntfIntent) (h : ipPhaseStep nbs acc e = some a2) :
    ∃ ip mask c, splitIpaddr e.2.ipaddr = some (ip, mask) ∧
      canonicalCidr ip mask = some c ∧
      a2 = nbs.foldl (ipAttach e.1 c (getIpAddresses acc.1 c).isEmpty) acc := by
  rw [ipPhaseStep] at h
  cases hsplit : splitIpaddr e.2.ipaddr with
  | none => rw [hsplit] at h; simp at h
  | some pm =>
    obtain ⟨ip, mask⟩ := pm
    rw [hsplit] at h
    simp only [Option.bind_eq_bind, Option.some_bind] at h
    cases hcidr : canonicalCidr ip mask with
    | none => rw [hcidr] at h; simp at h
    | some c =>
      rw [hcidr] at h
      simp only [Option.bind_eq_bind, Option.some_bind, Option.pure_def,
        Option.some_inj] at h
      exact ⟨ip, mask, c, rfl, hcidr, h.symm⟩

/-- Helper: presence of an IP record with a given literal address is
equivalent to a nonempty lookup. -/
lemma getIpAddresses_isEmpty (s : NbState) (c : String) :
    (getIpAddresses s c).isEmpty = true ↔ ∀ ip ∈ s.ips, ip.address ≠ c := by
  rw [getIpAddresses, List.isEmpty_iff, List.filter_eq_nil]
  constructor
  · intro h ip hip
    have := h ip hip
    simpa using this
  · intro h ip hip
    simpa using h ip hip

/-- Helper: a successful IP step only appends to the IP table and leaves
the other tables alone. -/
lemma ipPhaseStep_frame (nbs : List NbInterface) (acc a2 : NbState × List String)
    (e : String × IntfIntent) (h : ipPhaseStep nbs acc e = some a2) :
    a2.1.interfaces = acc.1.interfaces ∧ a2.1.devices = acc.1.devices ∧
    a2.1.next_intf_id = acc.1.next_intf_id ∧ ∃ t, a2.1.ips = acc.1.ips ++ t := by
  obtain ⟨ip, mask, c, _, _, hfold⟩ := ipPhaseStep_inv nbs acc a2 e h
  cases hemp : (getIpAddresses acc.1 c).isEmpty with
  | true =>
    rw [hemp] at hfold
    rw [hfold, ipAttach_foldl_empty]
    exact ⟨rfl, rfl, rfl,
      (nbs.filter (fun r => e.1 == r.name)).map
        (fun r => ({ address := c, interface_id := r.id } : NbIp)), rfl⟩
  | false =>
    rw [hemp] at hfold
    rw [hfold, ipAttach_foldl_nonempty]
    exact ⟨rfl, rfl, rfl, [], (List.append_nil _).symm⟩

/-- Helper: a successful IP phase only appends to the IP table and leaves
the other tables alone. -/
lemma ipPhase_frame (nbs : List NbInterface) :
    ∀ (intent : List (String × IntfIntent)) (acc out : NbState × List String),
      intent.foldlM (ipPhaseStep nbs) acc = some out →
      out.1.interfaces = acc.1.interfaces ∧ out.1.devices = acc.1.devices ∧
      out.1.next_intf_id = acc.1.next_intf_id ∧ ∃ t, out.1.ips = acc.1.ips ++ t := by
  intro intent
  induction intent with
  | nil =>
    intro acc out h
    simp only [List.foldlM_nil, Option.pure_def, Option.some_inj] at h
    subst h
    exact ⟨rfl, rfl, rfl, [], (List.append_nil _).symm⟩
  | cons e rest ih =>
    intro acc out h
    rw [List.foldlM_cons] at h
    cases hstep : ipPhaseStep nbs acc e with
    | none => rw [hstep] at h; simp at h
    | some a2 =>
      rw [hstep] at h
      simp only [Option.bind_eq_bind, Option.some_bind] at h
      obtain ⟨h1, h2, h3, t1, h4⟩ := ipPhaseStep_frame nbs acc a2 e hstep
      obtain ⟨g1, g2, g3, t2, g4⟩ := ih a2 out h
      exact ⟨g1.trans h1, g2.trans h2, g3.trans h3, t1 ++ t2,
        by rw [g4, h4, List.append_assoc]⟩

/-- Helper: after a successful IP phase, every intent entry whose name
matches some snapshot interface has its canonical CIDR present in the
IP table. -/
lemma ipPhase_coverage (nbs : List NbInterface) :
    ∀ (intent : List (String × IntfIntent)) (acc out : NbState × List String),
      intent.foldlM (ipPhaseStep nbs) acc = some out →
      ∀ e ∈ intent, ∀ ip mask c, splitIpaddr e.2.ipaddr = some (ip, mask) →
        canonicalCidr ip mask = some c →
        (∃ r ∈ nbs, (e.1 == r.name) = true) →
        ∃ iprec ∈ out.1.ips, iprec.address = c := by
  intro intent
  induction intent with
  | nil => intro acc out _ e he; exact absurd he (List.not_mem_nil e)
  | cons e rest ih =>
    intro acc out h
    rw [List.foldlM_cons] at h
    cases hstep : ipPhaseStep nbs acc e with
    | none => rw [hstep] at h; simp at h
    | some a2 =>
      rw [hstep] at h
      simp only [Option.bind_eq_bind, Option.some_bind] at h
      intro e2 he2 ip mask c hs hc hmatch
      rcases List.mem_cons.mp he2 with rfl | hmem
      · obtain ⟨ip0, mask0, c0, hs0, hc0, hfold⟩ := ipPhaseStep_inv nbs acc a2 e2 hstep
        rw [hs0] at hs
        obtain ⟨rfl, rfl⟩ : ip0 = ip ∧ mask0 = mask := by
          have := Option.some_inj.mp hs
          exact ⟨congrArg Prod.fst this, congrArg Prod.snd this⟩
        rw [hc0] at hc
        obtain rfl : c = c0 := (Option.some_inj.mp hc).symm
        have hin2 : ∃ iprec ∈ a2.1.ips, iprec.address = c := by
          cases hemp : (getIpAddresses acc.1 c).isEmpty with
          | true =>
            rw [hemp] at hfold
            rw [hfold, ipAttach_foldl_empty]
            obtain ⟨r, hr, hname⟩ := hmatch
            refine ⟨{ address := c, interface_id := r.id }, ?_, rfl⟩
            simp only [List.mem_append]
            refine Or.inr (List.mem_map_of_mem _ ?_)
            rw [List.mem_filter]
            exact ⟨hr, hname⟩
          | false =>
            have : ¬ ∀ ip1 ∈ acc.1.ips, ip1.address ≠ c := by
              intro hall
              rw [(getIpAddresses_isEmpty acc.1 c).mpr hall] at hemp
              exact Bool.noConfusion hemp
            push_neg at this
            obtain ⟨ip1, hip1, haddr⟩ := this
            obtain ⟨_, _, _, t, hips⟩ := ipPhaseStep_frame nbs acc a2 e2 hstep
            exact ⟨ip1, by rw [hips]; exact List.mem_append_left t hip1, haddr⟩
        obtain ⟨iprec, hiprec, haddr⟩ := hin2
        obtain ⟨_, _, _, t, hips⟩ := ipPhase_frame nbs rest a2 out h
        exact ⟨iprec, by rw [hips]; exact List.mem_append_left t hiprec, haddr⟩
      · exact ih a2 out h e2 hmem ip mask c hs hc hmatch

/-- Helper: a successful IP phase records that every intent entry's
address parses. -/
lemma ipPhase_parses (nbs : List NbInterface) :
    ∀ (intent : List (String × IntfIntent)) (acc out : NbState × List String),
      intent.foldlM (ipPhaseStep nbs) acc = some out →
      ∀ e ∈ intent, ∃ ip mask c, splitIpaddr e.2.ipaddr = some (ip, mask) ∧
        canonicalCidr ip mask = some c := by
  intro intent
  induction intent with
  | nil => intro acc out _ e he; exact absurd he (List.not_mem_nil e)
  | cons e rest ih =>
    intro acc out h
    rw [List.foldlM_cons] at h
    cases hstep : ipPhaseStep nbs acc e with
    | none => rw [hstep] at h; simp at h
    | some a2 =>
      rw [hstep] at h
      simp only [Option.bind_eq_bind, Option.some_bind] at h
      intro e2 he2
      rcases List.mem_cons.mp he2 with rfl | hmem
      · obtain ⟨ip, mask, c, hs, hc, _⟩ := ipPhaseStep_inv nbs acc a2 e2 hstep
        exact ⟨ip, mask, c, hs, hc⟩
      · exact ih a2 out h e2 hmem

/-- Helper: when every intent entry parses and every entry matching a
snapshot interface already has its CIDR in the IP table, the IP phase
leaves the state unchanged, only accumulating flags. -/
lemma ipPhase_identity (nbs : List NbInterface) (s : NbState) :
    ∀ (intent : List (String × IntfIntent)) (fl : List String),
      (∀ e ∈ intent, ∃ ip mask c, splitIpaddr e.2.ipaddr = some (ip, mask) ∧
        canonicalCidr ip mask = some c) →
      (∀ e ∈ intent, ∀ ip mask c, splitIpaddr e.2.ipaddr = some (ip, mask) →
        canonicalCidr ip mask = some c →
        (∃ r ∈ nbs, (e.1 == r.name) = true) →
        ∃ iprec ∈ s.ips, iprec.address = c) →
      ∃ fl2, intent.foldlM (ipPhaseStep nbs) (s, fl) = some (s, fl2) := by
  intro intent
  induction intent with
  | nil => intro fl _ _; exact ⟨fl, by simp⟩
  | cons e rest ih =>
    intro fl hpar hcov
    obtain ⟨ip, mask, c, hs, hc⟩ := hpar e (List.mem_cons_self e rest)
    have hstep : ipPhaseStep nbs (s, fl) e =
        some (nbs.foldl (ipAttach e.1 c (getIpAddresses s c).isEmpty) (s, fl)) := by
      rw [ipPhaseStep, hs]
      simp only [Option.bind_eq_bind, Option.some_bind]
      rw [hc]
      simp only [Option.bind_eq_bind, Option.some_bind, Option.pure_def]
    by_cases hmatch : ∃ r ∈ nbs, (e.1 == r.name) = true
    · have hcover := hcov e (List.mem_cons_self e rest) ip mask c hs hc hmatch
      have hemp : (getIpAddresses s c).isEmpty = false := by
        cases hval : (getIpAddresses s c).isEmpty with
        | false => rfl
        | true =>
          obtain ⟨iprec, hiprec, haddr⟩ := hcover
          exact absurd haddr ((getIpAddresses_isEmpty s c).mp hval iprec hiprec)
      rw [hemp, ipAttach_foldl_nonempty] at hstep
      obtain ⟨fl2, hrest⟩ := ih
        (fl ++ (nbs.filter (fun r => e.1 == r.name)).map (fun _ => c))
        (fun x hx => hpar x (List.mem_cons_of_mem e hx))
        (fun x hx => hcov x (List.mem_cons_of_mem e hx))
      exact ⟨fl2, by rw [List.foldlM_cons, hstep]; simpa using hrest⟩
    · have hfilter : nbs.filter (fun r => e.1 == r.name) = [] := by
        rw [List.filter_eq_nil]
        intro r hr hcontra
        exact hmatch ⟨r, hr, hcontra⟩
      have hsame : nbs.foldl (ipAttach e.1 c (getIpAddresses s c).isEmpty) (s, fl) =
          (s, fl) := by
        cases hval : (getIpAddresses s c).isEmpty with
        | true => rw [ipAttach_foldl_empty, hfilter]; simp
        | false => rw [ipAttach_foldl_nonempty, hfilter]; simp
      rw [hsame] at hstep
      obtain ⟨fl2, hrest⟩ := ih fl
        (fun x hx => hpar x (List.mem_cons_of_mem e hx))
        (fun x hx => hcov x (List.mem_cons_of_mem e hx))
      exact ⟨fl2, by rw [List.foldlM_cons, hstep]; simpa using hrest⟩

/-- Helper: in a list of interface records with pairwise-distinct names,
filtering by one name yields at most one record. -/
lemma filter_name_singleton :
    ∀ (nbs : List NbInterface), (nbs.map NbInterface.name).Nodup →
      ∀ n : String, nbs.filter (fun r => n == r.name) = [] ∨
        ∃ r0, nbs.filter (fun r => n == r.name) = [r0] := by
  intro nbs
  induction nbs with
  | nil => intro _ n; exact Or.inl rfl
  | cons r rest ih =>
    intro hnodup n
    simp only [List.map_cons, List.nodup_cons] at hnodup
    obtain ⟨hr, hnodup2⟩ := hnodup
    by_cases hc : (n == r.name) = true
    · refine Or.inr ⟨r, ?_⟩
      rw [List.filter_cons, if_pos hc]
      have : rest.filter (fun q => n == q.name) = [] := by
        rw [List.filter_eq_nil]
        intro q hq hcontra
        apply hr
        have h1 : n = r.name := by simpa using hc
        have h2 : n = q.name := by simpa using hcontra
        rw [h1.symm.trans h2]
        exact List.mem_map_of_mem NbInterface.name hq
      rw [this]
    · rw [List.filter_cons, if_neg hc]
      exact ih hnodup2 n

/-- Helper: a successful IP phase preserves uniqueness of literal IP
address strings, given a snapshot with pairwise-distinct names. -/
lemma ipPhase_ipNodup (nbs : List NbInterface)
    (hnames : (nbs.map NbInterface.name).Nodup) :
    ∀ (intent : List (String × IntfIntent)) (acc out : NbState × List String),
      intent.foldlM (ipPhaseStep nbs) acc = some out →
      (acc.1.ips.map NbIp.address).Nodup → (out.1.ips.map NbIp.address).Nodup := by
  intro intent
  induction intent with
  | nil =>
    intro acc out h hnd
    simp only [List.foldlM_nil, Option.pure_def, Option.some_inj] at h
    subst h
    exact hnd
  | cons e rest ih =>
    intro acc out h hnd
    rw [List.foldlM_cons] at h
    cases hstep : ipPhaseStep nbs acc e with
    | none => rw [hstep] at h; simp at h
    | some a2 =>
      rw [hstep] at h
      simp only [Option.bind_eq_bind, Option.some_bind] at h
      refine ih a2 out h ?_
      obtain ⟨ip, mask, c, _, _, hfold⟩ := ipPhaseStep_inv nbs acc a2 e hstep
      cases hemp : (getIpAddresses acc.1 c).isEmpty with
      | false =>
        rw [hemp, ipAttach_foldl_nonempty] at hfold
        rw [hfold]
        exact hnd
      | true =>
        rw [hemp, ipAttach_foldl_empty] at hfold
        rcases filter_name_singleton nbs hnames e.1 with hnil | ⟨r0, hone⟩
        · rw [hfold, hnil]
          simpa using hnd
        · rw [hfold, hone]
          simp only [List.map_cons, List.map_nil, List.map_append]
          rw [List.nodup_append]
          refine ⟨hnd, List.nodup_singleton c, ?_⟩
          intro x hx hx1
          simp only [List.map_cons, List.map_nil, List.mem_singleton] at hx1
          subst hx1
          obtain ⟨iprec, hiprec, haddr⟩ := List.mem_map.mp hx
          exact ((getIpAddresses_isEmpty acc.1 x).mp hemp iprec hiprec) haddr

/-- Helper: the lifecycle update touches only the device table. -/
lemma updateDevice_frame (s : NbState) (n : String) (t r st : Nat) :
    (updateDevice s n t r st).interfaces = s.interfaces ∧
    (updateDevice s n t r st).ips = s.ips := ⟨rfl, rfl⟩

/-- Helper: the lifecycle update is idempotent. -/
lemma updateDevice_idem (s : NbState) (n : String) (t r st : Nat) :
    updateDevice (updateDevice s n t r st) n t r st = updateDevice s n t r st := by
  simp only [updateDevice, List.map_map]
  congr 1
  refine List.map_congr_left ?_
  intro d _
  by_cases hc : (d.name == n) = true
  · simp [Function.comp, hc]
  · simp [Function.comp, hc]

/-- C6: interface reconciliation is an upsert keyed by (device identity,
interface name): it creates exactly one new record per observed
interface absent from the device's inventory snapshot and none for
present ones; it never deletes a record — every prior record, including
those for interfaces absent from the observed facts, survives with its
identity and key; every observed interface ends up present on the
device; and present records carry the observed description and
normalized MAC (the update). -/
theorem interface_upsert (dev : Device) (s : NbState)
    (obs : List (String × ObservedIntf))
    (hobs : (obs.map Prod.fst).Nodup)
    (hcons : ∀ r ∈ s.interfaces,
      (r.device_display_name = dev.name ↔ r.device_id = dev.id)) :
    ((interfacePhase dev s obs).interfaces.length =
      s.interfaces.length +
        (obs.filter (fun e =>
          !(is_interface_present (getInterfaces s dev.id) dev.name e.1))).length) ∧
    (∀ r ∈ s.interfaces, ∃ q ∈ (interfacePhase dev s obs).interfaces,
      q.id = r.id ∧ q.device_id = r.device_id ∧
      q.device_display_name = r.device_display_name ∧ q.name = r.name) ∧
    (∀ e ∈ obs, ∃ q ∈ (interfacePhase dev s obs).interfaces,
      q.device_display_name = dev.name ∧ q.name = e.1 ∧ q.device_id = dev.id) ∧
    (∀ e ∈ obs, recordMatches dev e.1 e.2 (interfacePhase dev s obs)) := by
  have hdef : interfacePhase dev s obs =
      obs.foldl (interfacePhaseStep dev (getInterfaces s dev.id)) s := rfl
  have hnm : ∀ e ∈ obs,
      is_interface_present (getInterfaces s dev.id) dev.name e.1 = false →
      ∀ r ∈ s.interfaces, ¬(r.device_display_name = dev.name ∧ r.name = e.1) :=
    fun e _ hpres => initial_no_key dev s hcons e.1 hpres
  have hsnap : ∀ r ∈ getInterfaces s dev.id, ∃ q ∈ s.interfaces,
      q.device_display_name = r.device_display_name ∧ q.name = r.name ∧
      q.device_id = dev.id := by
    intro r hr
    rw [getInterfaces, List.mem_filter] at hr
    exact ⟨r, hr.1, rfl, rfl, by simpa using hr.2⟩
  refine ⟨?_, ?_, ?_, ?_⟩
  · rw [hdef]
    exact foldl_interfaceStep_length dev (getInterfaces s dev.id) obs s
  · rw [hdef]
    exact foldl_interfaceStep_preserves dev (getInterfaces s dev.id) obs s
  · rw [hdef]
    exact foldl_presence dev (getInterfaces s dev.id) obs s hsnap
  · rw [hdef]
    exact foldl_values dev (getInterfaces s dev.id) obs s hobs hnm

/-- C6 witness: on the sample device with an empty inventory, the upsert
creates one record per observed interface. -/
theorem interface_upsert_witness :
    (interfacePhase sampleDev sampleNb sampleObserved).interfaces.length =
      sampleNb.interfaces.length +
        (sampleObserved.filter (fun e =>
          !(is_interface_present (getInterfaces sampleNb sampleDev.id)
            sampleDev.name e.1))).length :=
  (interface_upsert sampleDev sampleNb sampleObserved (by decide) (by decide)).1

/-- C4: for an intent entry whose canonical CIDR parses and whose name
matches exactly one inventory interface record, IP reconciliation
creates the IP record attached to that interface iff no IP record with
that exact literal CIDR string exists; when one exists it performs no
create and no overwrite (the state is unchanged), flags the address for
manual verification, and still completes without error. -/
theorem ip_conflict_policy (nbs : List NbInterface) (s : NbState) (fl : List String)
    (n : String) (i : IntfIntent) (ip mask c : String) (r0 : NbInterface)
    (hsplit : splitIpaddr i.ipaddr = some (ip, mask))
    (hcidr : canonicalCidr ip mask = some c)
    (hmatch : nbs.filter (fun r => n == r.name) = [r0]) :
    (getIpAddresses s c = [] →
      ipPhaseStep nbs (s, fl) (n, i) =
        some ({ s with ips :=
          (s.ips ++ [{ address := c, interface_id := r0.id }]) }, fl)) ∧
    (getIpAddresses s c ≠ [] →
      ipPhaseStep nbs (s, fl) (n, i) = some (s, fl ++ [c])) := by
  have hstep : ipPhaseStep nbs (s, fl) (n, i) =
      some (nbs.foldl (ipAttach n c (getIpAddresses s c).isEmpty) (s, fl)) := by
    rw [ipPhaseStep]
    simp only [hsplit, hcidr, Option.bind_eq_bind, Option.some_bind, Option.pure_def]
  constructor
  · intro hempty
    have hemp : (getIpAddresses s c).isEmpty = true := by rw [hempty]; rfl
    rw [hemp, ipAttach_foldl_empty, hmatch] at hstep
    simpa using hstep
  · intro hne
    have hemp : (getIpAddresses s c).isEmpty = false := by
      cases hval : (getIpAddresses s c) with
      | nil => exact absurd hval hne
      | cons x xs => rfl
    rw [hemp, ipAttach_foldl_nonempty, hmatch] at hstep
    simpa using hstep

/-- C4 witness: on a concrete snapshot with exactly one matching record,
the entry's CIDR is created when absent and flagged (with the state
unchanged) when present. -/
theorem ip_conflict_policy_witness :
    ipPhaseStep [sampleR0] (sampleNb, []) ("GigabitEthernet1", sampleGi1) =
      some ({ sampleNb with ips :=
        (sampleNb.ips ++
          [{ address := "172.20.12.1/24", interface_id := sampleR0.id }]) }, []) ∧
    ipPhaseStep [sampleR0] (sampleNbIp, []) ("GigabitEthernet1", sampleGi1) =
      some (sampleNbIp, [] ++ ["172.20.12.1/24"]) :=
  ⟨(ip_conflict_policy [sampleR0] sampleNb [] "GigabitEthernet1" sampleGi1
      "172.20.12.1" "255.255.255.0" "172.20.12.1/24" sampleR0
      (by decide) (by decide) (by decide)).1 (by decide),
   (ip_conflict_policy [sampleR0] sampleNbIp [] "GigabitEthernet1" sampleGi1
      "172.20.12.1" "255.255.255.0" "172.20.12.1/24" sampleR0
      (by decide) (by decide) (by decide)).2 (by decide)⟩

/-- Helper: under key uniqueness and display/id consistency, the device's
interface snapshot has pairwise-distinct names. -/
lemma snapshot_names_nodup (dev : Device) (s : NbState)
    (huniq : keyUnique s.interfaces)
    (hcons : ∀ r ∈ s.interfaces,
      (r.device_display_name = dev.name ↔ r.device_id = dev.id)) :
    ((getInterfaces s dev.id).map NbInterface.name).Nodup := by
  have hsub : (getInterfaces s dev.id).Sublist s.interfaces := by
    rw [getInterfaces]
    exact List.filter_sublist s.interfaces
  have huniq2 : keyUnique (getInterfaces s dev.id) :=
    List.Pairwise.sublist hsub huniq
  have hp : (getInterfaces s dev.id).Pairwise (fun a b => a.name ≠ b.name) := by
    refine huniq2.imp_of_mem ?_
    intro a b ha hb hr
    rcases hr with h | h
    · exfalso
      apply h
      have ha2 : a ∈ s.interfaces ∧ a.device_id = dev.id := by
        simpa [getInterfaces] using ha
      have hb2 : b ∈ s.interfaces ∧ b.device_id = dev.id := by
        simpa [getInterfaces] using hb
      have hda : a.device_display_name = dev.name := (hcons a ha2.1).mpr ha2.2
      have hdb : b.device_display_name = dev.name := (hcons b hb2.1).mpr hb2.2
      rw [hda, hdb]
    · exact h
  have := List.pairwise_map.mpr hp
  exact this

/-- C3: reconciliation is idempotent.  Starting from an inventory
satisfying the data-model invariants (key uniqueness of interface
records, uniqueness of literal IP strings, display-name/device-id
consistency for the device), a second `update_netbox` run against the
same observed facts and the state left by the first run succeeds,
creates no new interface or IP record, and leaves the state exactly
unchanged (the re-applied interface updates carry identical values); the
resulting inventory has no duplicate interface record per (device, name)
and no duplicate IP record per literal CIDR string. -/
theorem reconciliation_idempotent (dev : Device) (obs : List (String × ObservedIntf))
    (cfg : ConfigVars) (s0 s1 : NbState) (fl1 : List String)
    (hobs : (obs.map Prod.fst).Nodup)
    (hcons : ∀ r ∈ s0.interfaces,
      (r.device_display_name = dev.name ↔ r.device_id = dev.id))
    (huniq : keyUnique s0.interfaces)
    (hips : (s0.ips.map NbIp.address).Nodup)
    (hrun : update_netbox dev obs cfg s0 = some (s1, fl1)) :
    (∃ fl2, update_netbox dev obs cfg s1 = some (s1, fl2)) ∧
    keyUnique s1.interfaces ∧ (s1.ips.map NbIp.address).Nodup := by
  simp only [update_netbox] at hrun
  cases hibp : ipPhase (getInterfaces (interfacePhase dev s0 obs) dev.id)
      (interfacePhase dev s0 obs) cfg.interfaces with
  | none => rw [hibp] at hrun; simp at hrun
  | some p =>
    obtain ⟨s2, flags⟩ := p
    rw [hibp] at hrun
    simp only [Option.bind_eq_bind, Option.some_bind, Option.pure_def,
      Option.some_inj] at hrun
    have hs1 : updateDevice s2 dev.name 2 2 1 = s1 := congrArg Prod.fst hrun
    have hA_ips : (interfacePhase dev s0 obs).ips = s0.ips :=
      (foldl_interfaceStep_ips dev (getInterfaces s0 dev.id) obs s0).1
    have hnm0 : ∀ e ∈ obs,
        is_interface_present (getInterfaces s0 dev.id) dev.name e.1 = false →
        ∀ r ∈ s0.interfaces, ¬(r.device_display_name = dev.name ∧ r.name = e.1) :=
      fun e _ hp => initial_no_key dev s0 hcons e.1 hp
    have hAcons : ∀ r ∈ (interfacePhase dev s0 obs).interfaces,
        (r.device_display_name = dev.name ↔ r.device_id = dev.id) :=
      foldl_consistent dev (getInterfaces s0 dev.id) obs s0 hcons
    have hAuniq : keyUnique (interfacePhase dev s0 obs).interfaces :=
      foldl_keyUnique dev (getInterfaces s0 dev.id) obs s0 hobs hnm0 huniq
    have hAval : ∀ e ∈ obs, recordMatches dev e.1 e.2 (interfacePhase dev s0 obs) :=
      foldl_values dev (getInterfaces s0 dev.id) obs s0 hobs hnm0
    have hsnap0 : ∀ r ∈ getInterfaces s0 dev.id, ∃ q ∈ s0.interfaces,
        q.device_display_name = r.device_display_name ∧ q.name = r.name ∧
        q.device_id = dev.id := by
      intro r hr
      rw [getInterfaces, List.mem_filter] at hr
      exact ⟨r, hr.1, rfl, rfl, by simpa using hr.2⟩
    have hApres : ∀ e ∈ obs, ∃ q ∈ (interfacePhase dev s0 obs).interfaces,
        q.device_display_name = dev.name ∧ q.name = e.1 ∧ q.device_id = dev.id :=
      foldl_presence dev (getInterfaces s0 dev.id) obs s0 hsnap0
    have hibp2 : cfg.interfaces.foldlM
        (ipPhaseStep (getInterfaces (interfacePhase dev s0 obs) dev.id))
        ((interfacePhase dev s0 obs), ([] : List String)) = some (s2, flags) := hibp
    obtain ⟨hf_int, hf_dev, hf_nid, t, hf_ips⟩ :=
      ipPhase_frame (getInterfaces (interfacePhase dev s0 obs) dev.id)
        cfg.interfaces ((interfacePhase dev s0 obs), ([] : List String))
        (s2, flags) hibp2
    have hs1_int : s1.interfaces = (interfacePhase dev s0 obs).interfaces := by
      rw [← hs1]
      exact (updateDevice_frame s2 dev.name 2 2 1).1.trans hf_int
    have hs1_ips : s1.ips = s2.ips := by
      rw [← hs1]
      exact (updateDevice_frame s2 dev.name 2 2 1).2
    have hnb_eq : getInterfaces s1 dev.id =
        getInterfaces (interfacePhase dev s0 obs) dev.id := by
      rw [getInterfaces, getInterfaces, hs1_int]
    have hpres1 : ∀ e ∈ obs,
        is_interface_present (getInterfaces s1 dev.id) dev.name e.1 = true := by
      intro e he
      obtain ⟨q, hq, hqd, hqn, hqi⟩ := hApres e he
      rw [is_interface_present, List.any_eq_true]
      refine ⟨q, ?_, by simp [hqd, hqn]⟩
      rw [hnb_eq, getInterfaces, List.mem_filter]
      exact ⟨hq, by simp [hqi]⟩
    have hval1 : ∀ e ∈ obs, recordMatches dev e.1 e.2 s1 := by
      intro e he r hr hd hn
      rw [hs1_int] at hr
      exact hAval e he r hr hd hn
    have hident : interfacePhase dev s1 obs = s1 :=
      interfacePhase_identity dev s1 obs hpres1 hval1
    have hpar := ipPhase_parses
      (getInterfaces (interfacePhase dev s0 obs) dev.id) cfg.interfaces
      ((interfacePhase dev s0 obs), ([] : List String)) (s2, flags) hibp2
    have hcov1 : ∀ e ∈ cfg.interfaces, ∀ ip mask c,
        splitIpaddr e.2.ipaddr = some (ip, mask) →
        canonicalCidr ip mask = some c →
        (∃ r ∈ getInterfaces (interfacePhase dev s0 obs) dev.id,
          (e.1 == r.name) = true) →
        ∃ iprec ∈ s1.ips, iprec.address = c := by
      intro e he ip mask c hs hc hm
      obtain ⟨iprec, hi, ha⟩ := ipPhase_coverage
        (getInterfaces (interfacePhase dev s0 obs) dev.id) cfg.interfaces
        ((interfacePhase dev s0 obs), ([] : List String)) (s2, flags)
        hibp2 e he ip mask c hs hc hm
      exact ⟨iprec, by rw [hs1_ips]; exact hi, ha⟩
    obtain ⟨fl2, hid2⟩ := ipPhase_identity
      (getInterfaces (interfacePhase dev s0 obs) dev.id) s1 cfg.interfaces []
      hpar hcov1
    refine ⟨⟨fl2, ?_⟩, ?_, ?_⟩
    · simp only [update_netbox, hident]
      rw [hnb_eq]
      rw [show ipPhase (getInterfaces (interfacePhase dev s0 obs) dev.id) s1
          cfg.interfaces = some (s1, fl2) from hid2]
      simp only [Option.bind_eq_bind, Option.some_bind, Option.pure_def,
        Option.some_inj]
      rw [← hs1, updateDevice_idem]
    · rw [hs1_int]
      exact hAuniq
    · have hnames := snapshot_names_nodup dev (interfacePhase dev s0 obs)
        hAuniq hAcons
      have hnd0 : ((((interfacePhase dev s0 obs), ([] : List String)).1.ips.map
          NbIp.address)).Nodup := by
        rw [show ((interfacePhase dev s0 obs), ([] : List String)).1.ips =
          s0.ips from hA_ips]
        exact hips
      have hnd2 := ipPhase_ipNodup
        (getInterfaces (interfacePhase dev s0 obs) dev.id) hnames cfg.interfaces
        ((interfacePhase dev s0 obs), ([] : List String)) (s2, flags) hibp2 hnd0
      rw [hs1_ips]
      exact hnd2

/-- C3 witness: one concrete reconciliation run from an empty inventory
yields `sampleRun1`; a second run against the same observed facts
returns `sampleRun1` unchanged, with both uniqueness invariants intact. -/
theorem reconciliation_idempotent_witness :
    (∃ fl2, update_netbox sampleDev sampleObserved sampleCfg sampleRun1 =
      some (sampleRun1, fl2)) ∧
    keyUnique sampleRun1.interfaces ∧
    (sampleRun1.ips.map NbIp.address).Nodup :=
  reconciliation_idempotent sampleDev sampleObserved sampleCfg sampleNb
    sampleRun1 [] (by decide) (by decide) (by exact List.Pairwise.nil)
    (by decide) (by decide)

end NornirNetboxDemo
